import Mathlib

/-!
# FinalPlayer — verification of the core model

A shallow embedding of `src/app.js` (class `FinalPlayer`): the library
collections (tracks, assets, albums, playlists), the durable IndexedDB
mirror, the playback engine (queue / shuffled queue / current index), the
gain stage and the ten-band equalizer, together with theorems checking the
natural-language specification against this embedding.

Conventions of the embedding:
* JavaScript `Map` objects are association lists `List (String × α)` that
  preserve insertion order; `Map.set` on an existing key replaces the value
  in place, on a fresh key it appends (as in JS).
* Asynchronous IndexedDB operations are sequentialized in program order.
  Each durable operation consults a failure schedule `sched : List Bool`
  (head entry `true` = the next operation rejects); an empty schedule means
  every operation succeeds.  A rejected promise inside a `try` block
  transfers control to the `catch` block; an unawaited/unhandled rejection
  has no control-flow effect, which is modelled by ignoring the returned
  success flag.
* `Math.random()` draws are an explicit list `rand : List ℚ` consumed in
  order.  Fresh `generateId()` outputs are an explicit list `ids`.
* Blobs are opaque `Nat` tokens.  DOM-only effects (canvas, CSS, sliders)
  are dropped; user-visible toasts are recorded in a `toasts` list.
-/

namespace FinalPlayer

open List in
/-- Local reminder that `~` below always denotes `List.Perm`. -/
theorem perm_notation_check : [1, 2] ~ [2, 1] := List.Perm.swap 2 1 []

open List

/-- JS `Map.get`: first binding of the key, if any. -/
def mget {α : Type} (m : List (String × α)) (k : String) : Option α :=
  (m.find? (fun p => p.1 == k)).map (fun p => p.2)

/-- JS `Map.has`. -/
def mhas {α : Type} (m : List (String × α)) (k : String) : Bool :=
  m.any (fun p => p.1 == k)

/-- JS `Map.set`: replace in place if the key is present, else append. -/
def mset {α : Type} (m : List (String × α)) (k : String) (v : α) :
    List (String × α) :=
  if mhas m k then m.map (fun p => if p.1 == k then (k, v) else p)
  else m ++ [(k, v)]

/-- JS `Map.delete`. -/
def mdel {α : Type} (m : List (String × α)) (k : String) : List (String × α) :=
  m.filter (fun p => p.1 != k)

/-- JS `[...m.values()]` in insertion order. -/
def mvalues {α : Type} (m : List (String × α)) : List α :=
  m.map (fun p => p.2)

/-- JS `%` on integers (truncated remainder, sign of the dividend). -/
def jsMod (a b : Int) : Int := Int.tmod a b

/-- JS array indexing `l[i]`: `undefined` outside the array bounds. -/
def listGetI (l : List String) (i : Int) : Option String :=
  if 0 ≤ i then l[i.toNat]? else none

/-- JS `Array.prototype.indexOf` (−1 when absent). -/
def jsIndexOfAux (x : String) : List String → Int → Int
  | [], _ => -1
  | y :: ys, i => if y = x then i else jsIndexOfAux x ys (i + 1)

def jsIndexOf (l : List String) (x : String) : Int := jsIndexOfAux x l 0

/-- `file.name.replace(/\.[^/.]+$/, "")`: strip the final extension. -/
def stripExt (name : String) : String :=
  let rev := name.data.reverse
  let ext := rev.takeWhile (fun c => c ≠ '.' ∧ c ≠ '/')
  match rev.drop ext.length with
  | '.' :: rest => if ext.isEmpty then name else String.mk rest.reverse
  | _ => name

/-- JS `x || d` for possibly-missing strings (empty string is falsy). -/
def jsOrStr (o : Option String) (d : String) : String :=
  match o with
  | some s => if s = "" then d else s
  | none => d

/-- JS `x || d` for possibly-missing numbers (0 is falsy). -/
def jsOrNat (o : Option Nat) (d : Nat) : Nat :=
  match o with
  | some n => if n = 0 then d else n
  | none => d

/-! ## Data model (records stored in the collections) -/

structure Track where
  id : String
  title : String
  artist : String
  album : String
  trackNumber : Nat
  duration : ℚ
  fileAssetId : Option String
  coverAssetId : Option String
  addedAt : Nat
  deriving DecidableEq, Repr

structure Asset where
  id : String
  type : String         -- "audio" | "video" | "image"
  blob : Nat            -- opaque binary payload token
  filename : String
  deriving DecidableEq, Repr

structure Album where
  id : String
  name : String
  artist : String
  trackIds : List String
  coverAssetId : Option String
  deriving DecidableEq, Repr

structure Playlist where
  id : String
  name : String
  trackIds : List String
  coverAssetId : Option String
  createdAt : Nat
  deriving DecidableEq, Repr

/-- The persisted settings record (`theme` sub-object omitted: out of the
core, never read by the modelled operations). -/
structure Settings where
  volume : ℚ
  isMuted : Bool
  lastVolume : ℚ
  eqPreset : String
  customEq : List ℚ
  lastTrackId : Option String
  deriving DecidableEq, Repr

/-- A user-visible toast notification.  The import summary toast carries
its two counts structurally (in JS they are interpolated into the text). -/
inductive Toast where
  | msg (text : String) (kind : String)
  | importCounts (imported : Nat) (total : Nat)
  deriving DecidableEq, Repr

/-- The whole application state: the fields of the `FinalPlayer` class,
the durable IndexedDB stores (`d…` fields), and the explicit oracles for
scheduling failures, random draws and fresh ids. -/
structure App where
  currentTrackId : Option String
  queue : List String
  shuffledQueue : List String
  currentIndex : Int
  isPlaying : Bool
  shuffle : Bool
  repeatMode : String          -- the class field `repeat`
  library : List (String × Track)
  playlists : List (String × Playlist)
  albums : List (String × Album)
  assets : List (String × Asset)
  settings : Settings
  hasGain : Bool               -- `gainNode` is non-null
  gainValue : ℚ                -- `gainNode.gain.value`
  eqNodes : List ℚ             -- gain values of the ten biquad filters
  mediaSrc : Option String     -- `audioElement.src`, as the asset id behind it
  toasts : List Toast
  dTracks : List (String × Track)
  dAssets : List (String × Asset)
  dAlbums : List (String × Album)
  dPlaylists : List (String × Playlist)
  dSettings : Option Settings
  sched : List Bool
  rand : List ℚ
  ids : List String
  deriving DecidableEq, Repr

/-! ## Durable store layer -/

/-- Consume the next entry of the failure schedule.  Returns `true` when
the durable operation succeeds. -/
def nextOp (s : App) : App × Bool :=
  match s.sched with
  | [] => (s, true)
  | fails :: rest => ({ s with sched := rest }, !fails)

def saveTracksStore (s : App) (k : String) (v : Track) : App × Bool :=
  let (s', ok) := nextOp s
  if ok then ({ s' with dTracks := mset s'.dTracks k v }, true) else (s', false)

def saveAssetsStore (s : App) (k : String) (v : Asset) : App × Bool :=
  let (s', ok) := nextOp s
  if ok then ({ s' with dAssets := mset s'.dAssets k v }, true) else (s', false)

def saveAlbumsStore (s : App) (k : String) (v : Album) : App × Bool :=
  let (s', ok) := nextOp s
  if ok then ({ s' with dAlbums := mset s'.dAlbums k v }, true) else (s', false)

def deleteTracksStore (s : App) (k : String) : App × Bool :=
  let (s', ok) := nextOp s
  if ok then ({ s' with dTracks := mdel s'.dTracks k }, true) else (s', false)

def deleteAssetsStore (s : App) (k : String) : App × Bool :=
  let (s', ok) := nextOp s
  if ok then ({ s' with dAssets := mdel s'.dAssets k }, true) else (s', false)

/-- `saveSettings()`: persist the settings singleton. -/
def saveSettings (s : App) : App × Bool :=
  let (s', ok) := nextOp s
  if ok then ({ s' with dSettings := some s'.settings }, true) else (s', false)

/-- `showToast(message, type)`. -/
def showToast (s : App) (t : Toast) : App := { s with toasts := t :: s.toasts }

/-- `generateId()`: take the next fresh id from the oracle. -/
def genId (s : App) : App × String :=
  match s.ids with
  | [] => (s, "fresh")
  | i :: rest => ({ s with ids := rest }, i)

/-! ## Volume and equalizer (`setVolume`, `toggleMute`, `setEQGain`,
`applyEQPreset`, lines 477–498 and 1011–1034 of `src/app.js`) -/

/-- `setVolume(volume, isMuteToggle)`.  A no-op when the gain node was
never created (`if (this.gainNode)`). -/
def setVolume (s : App) (volume : ℚ) (isMuteToggle : Bool) : App :=
  if s.hasGain then
    let s := { s with gainValue := volume,
                      settings := { s.settings with volume := volume } }
    if !isMuteToggle then
      let s := { s with settings :=
        { s.settings with isMuted := decide (volume = 0) } }
      if volume > 0 then
        { s with settings := { s.settings with lastVolume := volume } }
      else s
    else s
  else s

/-- `toggleMute()`.  The trailing `saveSettings()` is not awaited; its
success flag is discarded. -/
def toggleMute (s : App) : App :=
  let s := { s with settings :=
    { s.settings with isMuted := !s.settings.isMuted } }
  let s :=
    if s.settings.isMuted then setVolume s 0 true
    else setVolume s (if s.settings.lastVolume > 0 then s.settings.lastVolume
                      else 7/10) true
  (saveSettings s).1

/-- `setEQGain(bandIndex, gain)`: guarded by `if (this.eqNodes[bandIndex])`,
so any index outside the node array is a no-op.  Updates the filter node's
gain and mirrors the value into `settings.customEq` (same length as
`eqNodes`, so the in-range update below is exact). -/
def setEQGain (s : App) (bandIndex : Int) (gain : ℚ) : App :=
  if 0 ≤ bandIndex ∧ bandIndex.toNat < s.eqNodes.length then
    { s with eqNodes := s.eqNodes.set bandIndex.toNat gain,
             settings := { s.settings with
               customEq := s.settings.customEq.set bandIndex.toNat gain } }
  else s

/-- The preset table of `applyEQPreset`; an unknown name falls back to
`flat` (`presets[presetName] || presets.flat`). -/
def eqPresetTable (s : App) (presetName : String) : List ℚ :=
  if presetName = "flat" then [0, 0, 0, 0, 0, 0, 0, 0, 0, 0]
  else if presetName = "rock" then [5, 3, 1, -2, -1, 1, 3, 4, 5, 5]
  else if presetName = "pop" then [-1, 1, 3, 4, 3, 1, -1, -1, 0, 0]
  else if presetName = "jazz" then [4, 2, 1, 2, -1, -1, 0, 1, 3, 4]
  else if presetName = "classical" then [-1, 0, 0, 0, 0, 0, 0, 2, 3, 4]
  else if presetName = "bass" then [6, 5, 4, 2, 0, -1, -2, -2, -3, -3]
  else if presetName = "custom" then s.settings.customEq
  else [0, 0, 0, 0, 0, 0, 0, 0, 0, 0]

/-- `preset.forEach((gain, index) => this.setEQGain(index, gain))`.  The
gain vector is captured up front; for the aliased `custom` entry this is
equivalent to JS's live iteration because each write stores back the value
just read at the same position. -/
def applyBands (s : App) (k : Nat) : List ℚ → App
  | [] => s
  | g :: gs => applyBands (setEQGain s (Int.ofNat k) g) (k + 1) gs

/-- `applyEQPreset(presetName, save)`. -/
def applyEQPreset (s : App) (presetName : String) (save : Bool) : App :=
  let preset := eqPresetTable s presetName
  let s := applyBands s 0 preset
  let s := { s with settings := { s.settings with eqPreset := presetName } }
  if save then (saveSettings s).1 else s

/-! ## Playback engine (`play`, `pause`, `loadTrack`, `playNext`,
`playPrevious`, `setQueueAndPlay`, `generateShuffledQueue`,
lines 373–475 of `src/app.js`) -/

/-- The resume branch of `play()` with no argument: `audioElement.play()`
modelled as succeeding, followed by the bookkeeping of the success branch. -/
def mediaResume (s : App) : App := { s with isPlaying := true }

/-- `loadTrack(track, shouldPlay)`.  Note that `currentTrackId` is
assigned before the asset lookup.  On success the object URL of the asset
blob is modelled by the asset id.  The `onloadedmetadata` callback (which
resumes playback when `shouldPlay`) is modelled as running at the end,
after `saveSettings`; the callback fires regardless of the outcome of the
unhandled `saveSettings` write. -/
def loadTrack (s : App) (track : Track) (shouldPlay : Bool) : App :=
  let s := { s with currentTrackId := some track.id }
  match track.fileAssetId.bind (mget s.assets) with
  | none => showToast s (Toast.msg "Archivo de audio no encontrado" "error")
  | some asset =>
      let s := { s with mediaSrc := some asset.id }
      let s := { s with settings :=
        { s.settings with lastTrackId := some track.id } }
      let s := (saveSettings s).1
      if shouldPlay then
        match s.currentTrackId with
        | some _ => mediaResume s
        | none => s
      else s

/-- `play(trackId)`.  `play(undefined)` (and `playNext` on an
out-of-range shuffled index) lands in the resume branch. -/
def play (s : App) (trackId : Option String) : App :=
  match trackId with
  | some id =>
      match mget s.library id with
      | none => s
      | some track =>
          let s := { s with currentTrackId := some id }
          loadTrack s track true
  | none =>
      match s.currentTrackId with
      | some _ => mediaResume s
      | none => s

/-- `pause()`. -/
def pause (s : App) : App := { s with isPlaying := false }

/-- `playNext()`. -/
def playNext (s : App) : App :=
  if s.queue.length = 0 then s
  else
    let s := { s with
      currentIndex := jsMod (s.currentIndex + 1) s.queue.length }
    let queueToUse := if s.shuffle then s.shuffledQueue else s.queue
    play s (listGetI queueToUse s.currentIndex)

/-- `playPrevious()`. -/
def playPrevious (s : App) : App :=
  if s.queue.length = 0 then s
  else
    let s := { s with
      currentIndex :=
        jsMod (s.currentIndex - 1 + s.queue.length) s.queue.length }
    let queueToUse := if s.shuffle then s.shuffledQueue else s.queue
    play s (listGetI queueToUse s.currentIndex)

/-- Stable insertion of a `(value, key)` pair after all pairs with a key
`≤` its own. -/
def insertByKey (x : String × ℚ) : List (String × ℚ) → List (String × ℚ)
  | [] => [x]
  | y :: ys => if y.2 ≤ x.2 then y :: insertByKey x ys else x :: y :: ys

def sortPairsAux : List (String × ℚ) → List (String × ℚ) → List (String × ℚ)
  | acc, [] => acc
  | acc, x :: xs => sortPairsAux (insertByKey x acc) xs

/-- Stable sort of `(value, key)` pairs by ascending key: the unique
stable sort, hence the behaviour of `Array.prototype.sort` under the
comparator `(a, b) => a.sort - b.sort`. -/
def sortPairs (l : List (String × ℚ)) : List (String × ℚ) :=
  sortPairsAux [] l

/-- The shuffle of `generateShuffledQueue` as a function of the random
draws: pair each element with its key, sort by key, project. -/
def shuffleWith (keys : List ℚ) (q : List String) : List String :=
  (sortPairs (q.zip keys)).map (fun p => p.1)

/-- `generateShuffledQueue()`: one `Math.random()` draw per queue element. -/
def generateShuffledQueue (s : App) : App :=
  let n := s.queue.length
  { s with shuffledQueue := shuffleWith (s.rand.take n) s.queue,
           rand := s.rand.drop n }

/-- `setQueueAndPlay(trackIds, startingTrackId)`. -/
def setQueueAndPlay (s : App) (trackIds : List String)
    (startingTrackId : String) : App :=
  let s := { s with queue := trackIds }
  let s := generateShuffledQueue s
  let queueToSearch := if s.shuffle then s.shuffledQueue else s.queue
  let startIndex := jsIndexOf queueToSearch startingTrackId
  let s := { s with currentIndex := if startIndex ≠ -1 then startIndex else 0 }
  play s (listGetI queueToSearch s.currentIndex)

/-! ## Import pipeline (`importFiles`, `processFile`,
`updateAlbumAndArtist`, lines 236–367 of `src/app.js`) -/

/-- The metadata object produced by `mmb.parseBlob` (`common`/`format`):
each field is absent when the tag is missing.  `picture` carries the
embedded cover's data token and MIME format. -/
structure FileMeta where
  title : Option String
  artist : Option String
  album : Option String
  trackNo : Option Nat
  duration : Option ℚ
  picture : Option (Nat × String)
  deriving DecidableEq, Repr

/-- An input file together with the oracles its processing consumes:
`meta = none` models a `parseBlob` rejection, `fallbackDuration = none` a
`getMediaDuration` rejection, `freshId1`/`freshId2` the `generateId()`
draws of the metadata and fallback paths, `now` the `Date.now()` stamp. -/
structure MFile where
  name : String
  mime : String
  blob : Nat
  meta : Option FileMeta
  fallbackDuration : Option ℚ
  freshId1 : String
  freshId2 : String
  now : Nat
  deriving DecidableEq, Repr

/-- JS `String.prototype.startsWith`: prefix test, character by
character. -/
def strStartsWith (s pre : String) : Bool := pre.data.isPrefixOf s.data

/-- The mime filter of `importFiles`. -/
def mimeValid (f : MFile) : Bool :=
  strStartsWith f.mime "audio/" || strStartsWith f.mime "video/"

/-- `file.type.startsWith('audio/') ? 'audio' : 'video'`. -/
def assetKindOf (f : MFile) : String :=
  if strStartsWith f.mime "audio/" then "audio" else "video"

/-- `.toLowerCase()`: lower-case the string character by character
(ASCII case mapping, as in `Char.toLower`). -/
def strToLower (s : String) : String := String.mk (s.data.map Char.toLower)

/-- The case-normalized album key `` `${name}|${artist}`.toLowerCase() ``. -/
def albumKeyOf (name artist : String) : String :=
  strToLower (name ++ "|" ++ artist)

/-- The `if (!album.trackIds.includes(track.id)) { ... }` block of
`updateAlbumAndArtist`, as a function on the album record. -/
def albumAppend (album : Album) (track : Track) : Album :=
  if album.trackIds.contains track.id then album
  else
    let album := { album with trackIds := album.trackIds ++ [track.id] }
    if album.coverAssetId = none ∧ track.coverAssetId ≠ none then
      { album with coverAssetId := track.coverAssetId }
    else album

/-- The album record built when no key matches. -/
def newAlbumFor (fresh : String) (track : Track) : Album :=
  { id := fresh, name := track.album, artist := track.artist,
    trackIds := [], coverAssetId := track.coverAssetId }

/-- `updateAlbumAndArtist(track)` (lines 344–367): find an album whose
joined key matches the track's, else create one; append the track id if
absent, setting the cover (only then) if the album has none; write the
album to memory FIRST and to the durable store second (the one site where
the in-memory index is updated before the durable write).  The returned
flag is `false` when the durable write rejected (the exception propagates
to the caller). -/
def updateAlbumAndArtist (s : App) (track : Track) : App × Bool :=
  let key := albumKeyOf track.album track.artist
  let found := (mvalues s.albums).find?
    (fun a => albumKeyOf a.name a.artist == key)
  let (s, album) :=
    match found with
    | some a => (s, a)
    | none =>
        let (s, fresh) := genId s
        (s, newAlbumFor fresh track)
  let album := albumAppend album track
  let s := { s with albums := mset s.albums album.id album }
  saveAlbumsStore s album.id album

/-- The fallback path of `processFile` (the `catch` block, lines
293–325): derive the duration from a throwaway media element, the title
from the filename; a second failure returns `false` with an error toast. -/
def processFileFallback (s : App) (f : MFile) : App × Bool :=
  let failToast := Toast.msg ("Error irrecuperable con " ++ f.name) "error"
  match f.fallbackDuration with
  | none => (showToast s failToast, false)
  | some duration =>
      let trackId := f.freshId2
      let assetId := "asset_" ++ trackId
      let track : Track :=
        { id := trackId, title := stripExt f.name,
          artist := "Artista Desconocido", album := "Álbum Desconocido",
          trackNumber := 1, duration := duration,
          fileAssetId := some assetId, coverAssetId := none,
          addedAt := f.now }
      let fileAsset : Asset :=
        { id := assetId, type := assetKindOf f, blob := f.blob,
          filename := f.name }
      let (s, ok1) := saveTracksStore s trackId track
      if !ok1 then (showToast s failToast, false) else
      let (s, ok2) := saveAssetsStore s assetId fileAsset
      if !ok2 then (showToast s failToast, false) else
      let s := { s with library := mset s.library trackId track,
                        assets := mset s.assets assetId fileAsset }
      let (s, ok3) := updateAlbumAndArtist s track
      if !ok3 then (showToast s failToast, false) else
      (s, true)

/-- The tail of the metadata path of `processFile`, after the optional
cover asset was stored: build the track and audio asset, write both
durably, then update the index and the album.  Any rejection lands in the
fallback path (`catch`). -/
def processFileMain (s : App) (f : MFile) (md : FileMeta)
    (coverAssetId : Option String) : App × Bool :=
  let trackId := f.freshId1
  let assetId := "asset_" ++ trackId
  let track : Track :=
    { id := trackId,
      title := jsOrStr md.title (stripExt f.name),
      artist := jsOrStr md.artist "Artista Desconocido",
      album := jsOrStr md.album "Álbum Desconocido",
      trackNumber := jsOrNat md.trackNo 1,
      duration := md.duration.getD 0,
      fileAssetId := some assetId, coverAssetId := coverAssetId,
      addedAt := f.now }
  let fileAsset : Asset :=
    { id := assetId, type := assetKindOf f, blob := f.blob,
      filename := f.name }
  let (s, ok1) := saveTracksStore s trackId track
  if !ok1 then processFileFallback s f else
  let (s, ok2) := saveAssetsStore s assetId fileAsset
  if !ok2 then processFileFallback s f else
  let s := { s with library := mset s.library trackId track,
                    assets := mset s.assets assetId fileAsset }
  let (s, ok3) := updateAlbumAndArtist s track
  if !ok3 then processFileFallback s f else
  (s, true)

/-- `processFile(file)` (lines 254–326).  Returns the per-file success
flag consumed by `importFiles`. -/
def processFile (s : App) (f : MFile) : App × Bool :=
  match f.meta with
  | none => processFileFallback s f
  | some md =>
      match md.picture with
      | none => processFileMain s f md none
      | some pic =>
          let coverAssetId := "cover_" ++ f.freshId1
          let coverAsset : Asset :=
            { id := coverAssetId, type := "image", blob := pic.1,
              filename := "cover.jpg" }
          let (s, okc) := saveAssetsStore s coverAssetId coverAsset
          if !okc then processFileFallback s f else
          let s := { s with assets := mset s.assets coverAssetId coverAsset }
          processFileMain s f md (some coverAssetId)

/-- The sequential per-file loop of `importFiles`: every file is
processed regardless of earlier failures; the successes are counted. -/
def runBatch (s : App) : List MFile → App × Nat
  | [] => (s, 0)
  | f :: rest =>
      let (s, ok) := processFile s f
      let (s', k) := runBatch s rest
      (s', (if ok then 1 else 0) + k)

/-- The value shape the spec promises from `importFiles`. -/
structure ImportResult where
  importedCount : Nat
  totalCount : Nat
  deriving DecidableEq, Repr

/-- `importFiles(files)` (lines 236–252).  The JS function has no return
statement — its value is `undefined`, modelled as the second component
`none`; the success/total counts only reach the caller's screen through
the final toast. -/
def importFiles (s : App) (files : List MFile) : App × Option ImportResult :=
  let validFiles := files.filter mimeValid
  if validFiles.length = 0 then
    (showToast s (Toast.msg
        "No se encontraron archivos de audio/video válidos" "warning"), none)
  else
    let s := showToast s (Toast.msg
      ("Importando " ++ toString validFiles.length ++ " archivos...") "info")
    let (s, successCount) := runBatch s validFiles
    let s := showToast s (Toast.importCounts successCount validFiles.length)
    (s, none)

/-! ## Deletion (`deleteTrack`, lines 1671–1689 of `src/app.js`) -/

/-- `deleteTrack(trackId)`: durable deletes first (track, audio asset,
cover asset — the cover unconditionally), then the in-memory removals,
then the queue filter and a fresh shuffled order.  A rejected durable
delete propagates out of the (caller-unhandled) async function: the
remaining statements do not run. -/
def deleteTrack (s : App) (trackId : String) : App :=
  match mget s.library trackId with
  | none => s
  | some track =>
      let (s, ok1) := deleteTracksStore s trackId
      if !ok1 then s else
      let (s, ok2) :=
        match track.fileAssetId with
        | some fa => deleteAssetsStore s fa
        | none => (s, true)
      if !ok2 then s else
      let (s, ok3) :=
        match track.coverAssetId with
        | some ca => deleteAssetsStore s ca
        | none => (s, true)
      if !ok3 then s else
      let s := { s with library := mdel s.library trackId }
      let s :=
        match track.fileAssetId with
        | some fa => { s with assets := mdel s.assets fa }
        | none => s
      let s :=
        match track.coverAssetId with
        | some ca => { s with assets := mdel s.assets ca }
        | none => s
      let s := { s with queue := s.queue.filter (fun id => id ≠ trackId) }
      let s := generateShuffledQueue s
      showToast s (Toast.msg "Canción eliminada" "success")

/-! ## Lemmas about the shuffle's stable sort -/

/-- The pair ordering used by the shuffle comparator. -/
def keyLE (a b : String × ℚ) : Prop := a.2 ≤ b.2

instance : DecidableRel keyLE := fun a b => inferInstanceAs (Decidable (a.2 ≤ b.2))

theorem insertByKey_perm (x : String × ℚ) (l : List (String × ℚ)) :
    insertByKey x l ~ x :: l := by
  induction l with
  | nil => rfl
  | cons y ys ih =>
      rw [insertByKey]
      by_cases hc : y.2 ≤ x.2
      · rw [if_pos hc]
        exact (ih.cons y).trans (List.Perm.swap x y ys)
      · rw [if_neg hc]

theorem sortPairsAux_perm (l acc : List (String × ℚ)) :
    sortPairsAux acc l ~ acc ++ l := by
  induction l generalizing acc with
  | nil => simp [sortPairsAux]
  | cons x xs ih =>
      calc sortPairsAux acc (x :: xs)
          = sortPairsAux (insertByKey x acc) xs := rfl
        _ ~ insertByKey x acc ++ xs := ih _
        _ ~ (x :: acc) ++ xs := (insertByKey_perm x acc).append_right xs
        _ ~ acc ++ x :: xs := List.perm_middle.symm

theorem sortPairs_perm (l : List (String × ℚ)) : sortPairs l ~ l := by
  simpa using sortPairsAux_perm l []

theorem mem_insertByKey {b x : String × ℚ} {l : List (String × ℚ)} :
    b ∈ insertByKey x l ↔ b = x ∨ b ∈ l := by
  constructor
  · intro hb
    have := (insertByKey_perm x l).mem_iff.mp hb
    simpa using this
  · intro hb
    apply (insertByKey_perm x l).mem_iff.mpr
    simpa using hb

theorem insertByKey_sorted {x : String × ℚ} {l : List (String × ℚ)}
    (h : List.Sorted keyLE l) : List.Sorted keyLE (insertByKey x l) := by
  induction l with
  | nil => simp [insertByKey, List.Sorted]
  | cons y ys ih =>
      rw [insertByKey]
      rw [List.sorted_cons] at h
      by_cases hc : y.2 ≤ x.2
      · rw [if_pos hc]
        rw [List.sorted_cons]
        refine ⟨?_, ih h.2⟩
        intro b hb
        rcases mem_insertByKey.mp hb with hbx | hbl
        · subst hbx; exact hc
        · exact h.1 b hbl
      · rw [if_neg hc]
        rw [List.sorted_cons]
        refine ⟨?_, List.sorted_cons.mpr h⟩
        intro b hb
        have hxy : keyLE x y := le_of_lt (lt_of_not_le hc)
        rcases List.mem_cons.mp hb with hby | hbl
        · subst hby; exact hxy
        · exact le_trans hxy (h.1 b hbl)

theorem sortPairsAux_sorted (l : List (String × ℚ))
    {acc : List (String × ℚ)} (hacc : List.Sorted keyLE acc) :
    List.Sorted keyLE (sortPairsAux acc l) := by
  induction l generalizing acc with
  | nil => exact hacc
  | cons x xs ih => exact ih (insertByKey_sorted hacc)

theorem sortPairs_sorted (l : List (String × ℚ)) :
    List.Sorted keyLE (sortPairs l) :=
  sortPairsAux_sorted l (by simp [List.Sorted])

/-- Whenever one random draw per element is available, the generated
shuffled order is a permutation of the queue. -/
theorem shuffleWith_perm {keys : List ℚ} {q : List String}
    (h : q.length ≤ keys.length) : shuffleWith keys q ~ q := by
  have h1 : (sortPairs (q.zip keys)).map Prod.fst ~ (q.zip keys).map Prod.fst :=
    (sortPairs_perm (q.zip keys)).map Prod.fst
  rw [List.map_fst_zip q keys h] at h1
  exact h1

/-! ### Uniformity of the shuffle

With independent continuous draws the relative order of the keys is, with
probability one, tie-free and uniformly distributed over the `n!` linear
orders; `castRange n` (the keys `0, 1, …, n−1`) is a canonical
representative of each rank order.  The two lemmas
`shuffleWith_rank_injective` / `shuffleWith_rank_surjective` below show the
map from rank orders to shuffled outputs is a bijection onto the
permutations of the queue, which is exactly "the shuffled order is a
uniform random permutation". -/

def castRange (n : Nat) : List ℚ :=
  (List.range n).map (fun k : Nat => (k : ℚ))

theorem castRange_length (n : Nat) : (castRange n).length = n := by
  rw [castRange, List.length_map, List.length_range]

theorem castRange_getElem (n j : Nat) (h : j < (castRange n).length) :
    (castRange n)[j] = (j : ℚ) := by
  simp only [castRange, List.getElem_map, List.getElem_range]

theorem castRange_sorted (n : Nat) : List.Sorted (· ≤ ·) (castRange n) := by
  have h : List.Pairwise (fun a b : ℚ => a ≤ b)
      ((List.range n).map (fun k : Nat => (k : ℚ))) :=
    List.Pairwise.map (fun k : Nat => (k : ℚ))
      (fun a b hab => by simp only []; exact_mod_cast hab)
      (List.sorted_le_range n)
  exact h

theorem sortPairs_snd_sorted (l : List (String × ℚ)) :
    List.Sorted (· ≤ ·) ((sortPairs l).map Prod.snd) :=
  List.Pairwise.map Prod.snd (fun _ _ h => h) (sortPairs_sorted l)

/-- When the keys are (a permutation of) `0, …, n−1`, the sorted pair
list is the output zipped with `0, …, n−1`. -/
theorem sortPairs_zip_eq {q : List String} {ks : List ℚ}
    (hlen : ks.length = q.length) (hk : ks ~ castRange q.length) :
    sortPairs (q.zip ks) = (shuffleWith ks q).zip (castRange q.length) := by
  have hsnd : (sortPairs (q.zip ks)).map Prod.snd = castRange q.length := by
    apply List.eq_of_perm_of_sorted ?_ (sortPairs_snd_sorted _)
      (castRange_sorted _)
    calc (sortPairs (q.zip ks)).map Prod.snd
        ~ (q.zip ks).map Prod.snd := (sortPairs_perm _).map _
      _ = ks := List.map_snd_zip q ks (le_of_eq hlen)
      _ ~ castRange q.length := hk
  have hfst : (sortPairs (q.zip ks)).map Prod.fst = shuffleWith ks q := rfl
  calc sortPairs (q.zip ks)
      = (((sortPairs (q.zip ks)).unzip.1).zip
          ((sortPairs (q.zip ks)).unzip.2)) := (List.zip_unzip _).symm
    _ = (shuffleWith ks q).zip (castRange q.length) := by
        rw [List.unzip_fst, List.unzip_snd, hfst, hsnd]

/-- Key recovery: with canonical rank keys, the key assigned to the
`i`-th queue element is exactly that element's position in the output. -/
theorem shuffleWith_key_eq_pos {q : List String} (hq : q.Nodup)
    {ks : List ℚ} (hk : ks ~ castRange q.length)
    (i : Nat) (hi : i < q.length) (hki : i < ks.length) :
    ks[i] = ((List.indexOf (q[i]) (shuffleWith ks q) : Nat) : ℚ) := by
  have hlen : ks.length = q.length := by
    simpa [castRange_length] using hk.length_eq
  have hr : shuffleWith ks q ~ q := shuffleWith_perm (le_of_eq hlen.symm)
  have hrn : (shuffleWith ks q).Nodup := hr.nodup_iff.mpr hq
  have hzip : q.zip ks ~ (shuffleWith ks q).zip (castRange q.length) :=
    (sortPairs_perm (q.zip ks)).symm.trans
      (by rw [sortPairs_zip_eq hlen hk])
  have hmemz : (q[i], ks[i]) ∈ q.zip ks := by
    have hlz : i < (q.zip ks).length := by
      rw [List.length_zip, hlen]
      exact lt_min hi hi
    have hgz : (q.zip ks)[i] = (q[i], ks[i]) := List.getElem_zip (h := hlz)
    exact hgz ▸ List.getElem_mem hlz
  have hmemr : (q[i], ks[i]) ∈ (shuffleWith ks q).zip (castRange q.length) :=
    hzip.mem_iff.mp hmemz
  obtain ⟨j, hj, hget⟩ := List.mem_iff_getElem.mp hmemr
  have hjr : j < (shuffleWith ks q).length := List.lt_length_left_of_zip hj
  have hjc : j < (castRange q.length).length := List.lt_length_right_of_zip hj
  have hpair : ((shuffleWith ks q)[j], (castRange q.length)[j])
      = (q[i], ks[i]) := by
    rw [← hget]
    exact (List.getElem_zip (h := hj)).symm
  have h1 : (shuffleWith ks q)[j] = q[i] := congrArg Prod.fst hpair
  have h2 : ks[i] = ((j : Nat) : ℚ) := by
    have hs := congrArg Prod.snd hpair
    simp only at hs
    rw [← hs, castRange_getElem]
  have hidx : List.indexOf (q[i]) (shuffleWith ks q) = j := by
    have := List.indexOf_getElem hrn j hjr
    rwa [h1] at this
  rw [h2, hidx]

/-- Two nodup rearrangements of `q` that position every element of `q`
identically are equal. -/
theorem perm_eq_of_indexOf_eq {q r r' : List String} (hq : q.Nodup)
    (hr : r ~ q) (hr' : r' ~ q)
    (h : ∀ (i : Nat) (hi : i < q.length),
      List.indexOf (q[i]) r = List.indexOf (q[i]) r') :
    r = r' := by
  have hrn : r.Nodup := hr.nodup_iff.mpr hq
  apply List.ext_getElem (by rw [hr.length_eq, ← hr'.length_eq])
  intro j hj hj'
  have hmem : r[j] ∈ q := hr.mem_iff.mp (List.getElem_mem hj)
  obtain ⟨i, hi, hqi⟩ := List.mem_iff_getElem.mp hmem
  have hidx : List.indexOf (q[i]) r = j := by
    have hbase := List.indexOf_getElem hrn j hj
    rwa [← hqi] at hbase
  have hidx' : List.indexOf (q[i]) r' = j := by rw [← h i hi, hidx]
  have hlt : List.indexOf (q[i]) r' < r'.length := hidx' ▸ hj'
  have hget := List.getElem_indexOf hlt
  have h5 : r'[j]? = some (q[i]) := by
    rw [← hidx', List.getElem?_eq_getElem hlt, hget]
  have h6 : r'[j] = q[i] :=
    Option.some.inj ((List.getElem?_eq_getElem hj').symm.trans h5)
  rw [h6, ← hqi]

/-- Injectivity: distinct rank orders of the keys yield distinct shuffled
outputs (on a duplicate-free queue). -/
theorem shuffleWith_rank_injective {q : List String} (hq : q.Nodup)
    {ks ks' : List ℚ} (hk : ks ~ castRange q.length)
    (hk' : ks' ~ castRange q.length)
    (he : shuffleWith ks q = shuffleWith ks' q) : ks = ks' := by
  have hlen : ks.length = q.length := by
    simpa [castRange_length] using hk.length_eq
  have hlen' : ks'.length = q.length := by
    simpa [castRange_length] using hk'.length_eq
  apply List.ext_getElem (by rw [hlen, hlen'])
  intro i h1 h2
  have e1 := shuffleWith_key_eq_pos hq hk i (hlen ▸ h1) h1
  have e2 := shuffleWith_key_eq_pos hq hk' i (hlen' ▸ h2) h2
  rw [e1, e2, he]

/-- Surjectivity: every rearrangement of a duplicate-free queue is
produced by some rank order of the keys. -/
theorem shuffleWith_rank_surjective {q : List String} (hq : q.Nodup)
    {r : List String} (hr : r ~ q) :
    ∃ ks : List ℚ, ks ~ castRange q.length ∧ shuffleWith ks q = r := by
  have hrn : r.Nodup := hr.nodup_iff.mpr hq
  refine ⟨q.map (fun x => ((List.indexOf x r : Nat) : ℚ)), ?_, ?_⟩
  case refine_1 =>
    have h1 : q.map (fun x => ((List.indexOf x r : Nat) : ℚ))
        ~ r.map (fun x => ((List.indexOf x r : Nat) : ℚ)) := (hr.symm).map _
    have h2 : r.map (fun x => ((List.indexOf x r : Nat) : ℚ))
        = castRange q.length := by
      apply List.ext_getElem (by simp [castRange_length, hr.length_eq])
      intro j hj hj'
      rw [List.getElem_map, castRange_getElem]
      norm_cast
      exact List.indexOf_getElem hrn j (by simpa using hj)
    rw [h2] at h1
    exact h1
  case refine_2 =>
    set ks := q.map (fun x => ((List.indexOf x r : Nat) : ℚ)) with hksdef
    have hk : ks ~ castRange q.length := by
      have h1 : q.map (fun x => ((List.indexOf x r : Nat) : ℚ))
          ~ r.map (fun x => ((List.indexOf x r : Nat) : ℚ)) := (hr.symm).map _
      have h2 : r.map (fun x => ((List.indexOf x r : Nat) : ℚ))
          = castRange q.length := by
        apply List.ext_getElem (by simp [castRange_length, hr.length_eq])
        intro j hj hj'
        rw [List.getElem_map, castRange_getElem]
        norm_cast
        exact List.indexOf_getElem hrn j (by simpa using hj)
      rw [h2] at h1
      exact h1
    have hlen : ks.length = q.length := by simp [hksdef]
    have hout : shuffleWith ks q ~ q := shuffleWith_perm (le_of_eq hlen.symm)
    apply perm_eq_of_indexOf_eq hq hout hr
    intro i hi
    have e1 := shuffleWith_key_eq_pos hq hk i hi (hlen ▸ hi)
    have e2 : ks[i] = ((List.indexOf (q[i]) r : Nat) : ℚ) := by
      simp [hksdef]
    rw [e2] at e1
    exact_mod_cast e1.symm

/-! ## Small state lemmas -/

/-- `saveSettings` only consumes a schedule entry and (on success)
rewrites the durable settings record. -/
theorem saveSettings_fst_eq (s : App) :
    (saveSettings s).1 =
      { s with sched := s.sched.tail,
               dSettings := if s.sched.head?.getD false then s.dSettings
                            else some s.settings } := by
  unfold saveSettings nextOp
  cases h : s.sched with
  | nil => simp [h]
  | cons b r => cases b <;> simp [h]

/-- Overwrite `p` into `l` starting at position `k` (the cumulative
effect of consecutive in-range `setEQGain` calls). -/
def patch (l : List ℚ) (k : Nat) : List ℚ → List ℚ
  | [] => l
  | g :: gs => patch (l.set k g) (k + 1) gs

theorem patch_length (p : List ℚ) : ∀ (l : List ℚ) (k : Nat),
    (patch l k p).length = l.length := by
  induction p with
  | nil => intro l k; rfl
  | cons g gs ih => intro l k; rw [patch, ih, List.length_set]

theorem patch_cons_succ (p : List ℚ) : ∀ (x : ℚ) (l : List ℚ) (k : Nat),
    patch (x :: l) (k + 1) p = x :: patch l k p := by
  induction p with
  | nil => intro x l k; rfl
  | cons g gs ih => intro x l k; rw [patch, List.set_cons_succ, ih, patch]

theorem patch_full (p : List ℚ) : ∀ l : List ℚ, p.length = l.length →
    patch l 0 p = p := by
  induction p with
  | nil =>
      intro l hl
      cases l with
      | nil => rfl
      | cons x xs => simp at hl
  | cons g gs ih =>
      intro l hl
      cases l with
      | nil => simp at hl
      | cons x xs =>
          rw [patch, List.set_cons_zero, patch_cons_succ, ih xs (by simpa using hl)]

theorem applyBands_eq (p : List ℚ) : ∀ (s : App) (k : Nat),
    k + p.length ≤ s.eqNodes.length →
    applyBands s k p = { s with
      eqNodes := patch s.eqNodes k p,
      settings := { s.settings with
        customEq := patch s.settings.customEq k p } } := by
  induction p with
  | nil =>
      intro s k _
      simp only [applyBands, patch]
  | cons g gs ih =>
      intro s k hk
      have htn : (Int.ofNat k).toNat = k := rfl
      have hin : 0 ≤ (Int.ofNat k) ∧ (Int.ofNat k).toNat < s.eqNodes.length := by
        refine ⟨Int.ofNat_nonneg k, ?_⟩
        rw [htn]
        simp only [List.length_cons] at hk
        omega
      rw [applyBands, setEQGain, if_pos hin, htn]
      rw [ih]
      · simp only [patch]
      · simp only [List.length_set]
        simp only [List.length_cons] at hk
        omega

/-! ## Sample states for witnesses and counterexamples -/

/-- A baseline session: audio graph initialized, empty library, the
constructor's default settings. -/
def app0 : App :=
  { currentTrackId := none, queue := [], shuffledQueue := [],
    currentIndex := -1, isPlaying := false, shuffle := false,
    repeatMode := "none", library := [], playlists := [], albums := [],
    assets := [],
    settings := { volume := 7/10, isMuted := false, lastVolume := 7/10,
                  eqPreset := "flat",
                  customEq := [0, 0, 0, 0, 0, 0, 0, 0, 0, 0],
                  lastTrackId := none },
    hasGain := true, gainValue := 7/10,
    eqNodes := [0, 0, 0, 0, 0, 0, 0, 0, 0, 0], mediaSrc := none,
    toasts := [], dTracks := [], dAssets := [], dAlbums := [],
    dPlaylists := [], dSettings := none, sched := [], rand := [],
    ids := [] }

/-! ## C7 — volume/mute round trip -/

/-- C7: for every volume `v` in `(0,1]`, after `setVolume(v)` the gain
stage value equals `v`, and calling `toggleMute` twice from the (then
unmuted) state restores the gain stage value to exactly `v`.  The gain
node must exist (`setVolume` is guarded by `if (this.gainNode)`). -/
theorem volume_mute_roundtrip (s : App) (v : ℚ) (hg : s.hasGain = true)
    (h0 : 0 < v) (h1 : v ≤ 1) :
    (setVolume s v false).gainValue = v ∧
    (toggleMute (toggleMute (setVolume s v false))).gainValue = v := by
  have hv0 : ¬ (v = 0) := ne_of_gt h0
  constructor
  · simp [setVolume, hg, h0]
  · simp [setVolume, toggleMute, saveSettings_fst_eq, hg, hv0, h0]

/-- C7 witness at `v = 0.42` on the baseline state. -/
theorem volume_mute_roundtrip_witness :
    app0.hasGain = true ∧ (0 : ℚ) < 42/100 ∧ (42 : ℚ)/100 ≤ 1 ∧
    ((setVolume app0 (42/100) false).gainValue = 42/100 ∧
     (toggleMute (toggleMute (setVolume app0 (42/100) false))).gainValue
       = 42/100) :=
  ⟨rfl, by norm_num, by norm_num,
   volume_mute_roundtrip app0 (42/100) rfl (by norm_num) (by norm_num)⟩

/-! ## C10 — out-of-range equalizer band index -/

/-- C10: with the ten filter nodes built, `setEQGain` on any band index
outside 0–9 is a total no-op (state unchanged, hence no error, no gain
change, `customEq` untouched); likewise for any index when the filter
nodes were never created. -/
theorem setEQGain_out_of_range_noop :
    (∀ (s : App) (i : Int) (g : ℚ), s.eqNodes.length = 10 →
        (i < 0 ∨ 9 < i) → setEQGain s i g = s) ∧
    (∀ (s : App) (i : Int) (g : ℚ), s.eqNodes = [] → setEQGain s i g = s) := by
  constructor
  · intro s i g hlen hi
    rw [setEQGain, if_neg]
    rintro ⟨h0i, hlt⟩
    rw [hlen] at hlt
    rcases hi with hi | hi <;> omega
  · intro s i g hnil
    rw [setEQGain, if_neg]
    rintro ⟨h0i, hlt⟩
    rw [hnil] at hlt
    simp at hlt

/-- C10 witness: band indices 12 and −1, and the nodeless state. -/
theorem setEQGain_out_of_range_noop_witness :
    app0.eqNodes.length = 10 ∧
    setEQGain app0 12 5 = app0 ∧ setEQGain app0 (-1) 5 = app0 ∧
    setEQGain { app0 with eqNodes := [] } 3 5
      = { app0 with eqNodes := [] } :=
  ⟨rfl,
   setEQGain_out_of_range_noop.1 app0 12 5 rfl (Or.inr (by norm_num)),
   setEQGain_out_of_range_noop.1 app0 (-1) 5 rfl (Or.inl (by norm_num)),
   setEQGain_out_of_range_noop.2 { app0 with eqNodes := [] } 3 5 rfl⟩

/-! ## C8 — equalizer presets and the `custom` slot -/

/-- C8 counterexample: manually set band 3 to +4 dB, apply `flat`, then
apply `custom`.  The claim demands band 3 come back as +4 dB (the last
manually edited value); the code returns 0, because `applyEQPreset`
routes every preset through `setEQGain`, which overwrites
`settings.customEq`. -/
theorem eqPreset_custom_cex :
    (setEQGain app0 3 4).settings.customEq[3]? = some 4 ∧
    (applyEQPreset (applyEQPreset (setEQGain app0 3 4) "flat" true)
        "custom" true).eqNodes[3]? = some 0 ∧
    ((0 : ℚ) ≠ 4) := by
  refine ⟨by decide, by decide, by norm_num⟩

/-- C8 (amended): applying `flat` sets all ten band gains (and, as a side
effect, all ten stored `customEq` values) to zero and records the preset
name; applying `custom` sets the ten band gains to the *stored*
`customEq` values — which track the most recently applied gains, whether
they came from a manual edit or from a previously applied named preset —
not the last manually edited values. -/
theorem eqPreset_flat_custom_amended (s : App) (save : Bool)
    (hn : s.eqNodes.length = 10) (hc : s.settings.customEq.length = 10) :
    ((applyEQPreset s "flat" save).eqNodes
        = [0, 0, 0, 0, 0, 0, 0, 0, 0, 0] ∧
     (applyEQPreset s "flat" save).settings.customEq
        = [0, 0, 0, 0, 0, 0, 0, 0, 0, 0] ∧
     (applyEQPreset s "flat" save).settings.eqPreset = "flat") ∧
    ((applyEQPreset s "custom" save).eqNodes = s.settings.customEq ∧
     (applyEQPreset s "custom" save).settings.customEq
        = s.settings.customEq ∧
     (applyEQPreset s "custom" save).settings.eqPreset = "custom") := by
  have hflat : eqPresetTable s "flat" = [0, 0, 0, 0, 0, 0, 0, 0, 0, 0] := rfl
  have hcust : eqPresetTable s "custom" = s.settings.customEq := rfl
  have happ1 := applyBands_eq (eqPresetTable s "flat") s 0
    (by rw [hflat, hn]; norm_num)
  have happ2 := applyBands_eq (eqPresetTable s "custom") s 0
    (by rw [hcust, hc, hn])
  have hp1 : patch s.eqNodes 0 (eqPresetTable s "flat")
      = [0, 0, 0, 0, 0, 0, 0, 0, 0, 0] := by
    rw [hflat]; exact patch_full _ _ (by rw [hn]; decide)
  have hp1c : patch s.settings.customEq 0 (eqPresetTable s "flat")
      = [0, 0, 0, 0, 0, 0, 0, 0, 0, 0] := by
    rw [hflat]; exact patch_full _ _ (by rw [hc]; decide)
  have hp2 : patch s.eqNodes 0 (eqPresetTable s "custom")
      = s.settings.customEq := by
    rw [hcust]; exact patch_full _ _ (by rw [hc, hn])
  have hp2c : patch s.settings.customEq 0 (eqPresetTable s "custom")
      = s.settings.customEq := by
    rw [hcust]; exact patch_full _ _ (by rw [hc])
  cases save <;>
    simp [applyEQPreset, saveSettings_fst_eq, happ1, happ2, hp1, hp1c,
      hp2, hp2c]

/-- C8 witness for the amended theorem, on the baseline state. -/
theorem eqPreset_flat_custom_amended_witness :
    app0.eqNodes.length = 10 ∧ app0.settings.customEq.length = 10 ∧
    (((applyEQPreset app0 "flat" true).eqNodes
        = [0, 0, 0, 0, 0, 0, 0, 0, 0, 0] ∧
      (applyEQPreset app0 "flat" true).settings.customEq
        = [0, 0, 0, 0, 0, 0, 0, 0, 0, 0] ∧
      (applyEQPreset app0 "flat" true).settings.eqPreset = "flat") ∧
     ((applyEQPreset app0 "custom" true).eqNodes
        = app0.settings.customEq ∧
      (applyEQPreset app0 "custom" true).settings.customEq
        = app0.settings.customEq ∧
      (applyEQPreset app0 "custom" true).settings.eqPreset = "custom")) :=
  ⟨rfl, rfl, eqPreset_flat_custom_amended app0 true rfl rfl⟩

/-! ## C4 — loading a track whose audio asset is missing -/

/-- C4 (amended): when the track's audio asset cannot be resolved,
`loadTrack` reports the user-visible error toast and leaves the loaded
media, `isPlaying`, the persisted last-track id — indeed every other part
of the state — unchanged, *except* `currentTrackId`, which the code
assigns to the requested track's id before the asset lookup. -/
theorem loadTrack_missing_asset_amended (s : App) (track : Track)
    (shouldPlay : Bool)
    (h : track.fileAssetId.bind (mget s.assets) = none) :
    loadTrack s track shouldPlay =
      { s with currentTrackId := some track.id,
               toasts := Toast.msg "Archivo de audio no encontrado" "error"
                 :: s.toasts } := by
  unfold loadTrack
  simp only []
  rw [show ({ s with currentTrackId := some track.id } : App).assets
        = s.assets from rfl] at *
  rw [h]
  rfl

/-- A track whose `fileAssetId` resolves to nothing in the baseline
state. -/
def trackMissing : Track :=
  { id := "t9", title := "X", artist := "Y", album := "Z",
    trackNumber := 1, duration := 1, fileAssetId := some "missing",
    coverAssetId := none, addedAt := 0 }

/-- C4 counterexample: a track other than the current one fails to load;
the claim says `currentTrackId` is left unchanged, but it now names the
failed track. -/
theorem loadTrack_missing_asset_cex :
    (loadTrack { app0 with currentTrackId := some "t1" } trackMissing
        true).currentTrackId = some "t9" ∧
    ({ app0 with currentTrackId := some "t1" } : App).currentTrackId
      = some "t1" ∧
    some "t9" ≠ some "t1" ∧
    (loadTrack { app0 with currentTrackId := some "t1" } trackMissing
        true).toasts
      = [Toast.msg "Archivo de audio no encontrado" "error"] ∧
    (loadTrack { app0 with currentTrackId := some "t1" } trackMissing
        true).isPlaying = false ∧
    (loadTrack { app0 with currentTrackId := some "t1" } trackMissing
        true).mediaSrc = none ∧
    (loadTrack { app0 with currentTrackId := some "t1" } trackMissing
        true).settings.lastTrackId = none := by
  refine ⟨by decide, rfl, by decide, by decide, by decide, by decide,
    by decide⟩

/-- C4 witness for the amended theorem. -/
theorem loadTrack_missing_asset_amended_witness :
    trackMissing.fileAssetId.bind (mget app0.assets) = none ∧
    loadTrack app0 trackMissing true =
      { app0 with currentTrackId := some "t9",
                  toasts := [Toast.msg "Archivo de audio no encontrado"
                    "error"] } :=
  ⟨rfl, loadTrack_missing_asset_amended app0 trackMissing true rfl⟩

/-! ## C6 — playNext / playPrevious wrap-around -/

/-- The library map is well-keyed: each entry is stored under its
record's id (true of every write the code performs). -/
def LibWF (s : App) : Prop := ∀ p ∈ s.library, (p.2).id = p.1

instance (s : App) : Decidable (LibWF s) :=
  inferInstanceAs (Decidable (∀ p ∈ s.library, (p.2).id = p.1))

theorem mget_wf_id {s : App} (hwf : LibWF s) {id : String} {t : Track}
    (h : mget s.library id = some t) : t.id = id := by
  unfold mget at h
  cases hf : s.library.find? (fun p => p.1 == id) with
  | none => rw [hf] at h; simp at h
  | some p =>
      rw [hf] at h
      simp at h
      have hp := List.find?_some hf
      have hmem := List.mem_of_find?_eq_some hf
      have h1 : p.1 = id := by simpa using hp
      have h2 : (p.2).id = p.1 := hwf p hmem
      rw [← h, h2, h1]

/-- `play` never touches the queue, the shuffled order, the shuffle
flag, the current index, the library or the assets. -/
theorem play_fields (s : App) (o : Option String) :
    (play s o).queue = s.queue ∧ (play s o).shuffledQueue = s.shuffledQueue ∧
    (play s o).shuffle = s.shuffle ∧
    (play s o).currentIndex = s.currentIndex ∧
    (play s o).library = s.library ∧
    (play s o).assets = s.assets := by
  cases o with
  | none =>
      cases h : s.currentTrackId <;> simp [play, h, mediaResume]
  | some id =>
      cases h : mget s.library id with
      | none => simp [play, h]
      | some track =>
          simp only [play, h]
          unfold loadTrack
          cases h2 : track.fileAssetId.bind
              (mget ({ s with currentTrackId := some id } : App).assets) with
          | none => simp [h2, showToast]
          | some asset => simp [h2, saveSettings_fst_eq, mediaResume]

/-- When the id resolves in the library, `play` loads that record and
`currentTrackId` ends at the record's id. -/
theorem play_some_currentTrackId (s : App) (id : String) (t : Track)
    (h : mget s.library id = some t) :
    (play s (some id)).currentTrackId = some t.id := by
  simp only [play, h]
  unfold loadTrack
  cases h2 : t.fileAssetId.bind
      (mget ({ s with currentTrackId := some id } : App).assets) with
  | none => simp [h2, showToast]
  | some asset => simp [h2, saveSettings_fst_eq, mediaResume]

/-- The active playback order (`this.shuffle ? this.shuffledQueue :
this.queue`). -/
def activeOrder (s : App) : List String :=
  if s.shuffle then s.shuffledQueue else s.queue

/-- One `playNext` step from a well-formed playback state. -/
theorem playNext_step (s : App) (n : Nat) (hq : s.queue.length = n)
    (h0 : 0 < n) (ha : (activeOrder s).length = n)
    (hi0 : 0 ≤ s.currentIndex) (hin : s.currentIndex < (n : Int))
    (hwf : LibWF s)
    (hmem : ∀ id ∈ activeOrder s, (mget s.library id).isSome = true) :
    (playNext s).queue = s.queue ∧
    (playNext s).shuffledQueue = s.shuffledQueue ∧
    (playNext s).shuffle = s.shuffle ∧
    (playNext s).library = s.library ∧
    (playNext s).currentIndex = (s.currentIndex + 1) % (n : Int) ∧
    (playNext s).currentTrackId
      = listGetI (activeOrder s) ((s.currentIndex + 1) % (n : Int)) := by
  have hne : ¬ (s.queue.length = 0) := by omega
  have hmod : jsMod (s.currentIndex + 1) (s.queue.length : Int)
      = (s.currentIndex + 1) % (n : Int) := by
    rw [hq, jsMod]
    exact Int.tmod_eq_emod (by omega) (by omega)
  set j : Int := (s.currentIndex + 1) % (n : Int) with hj
  have hj0 : 0 ≤ j := Int.emod_nonneg _ (by omega)
  have hjn : j < (n : Int) := Int.emod_lt_of_pos _ (by omega)
  have hjlt : j.toNat < (activeOrder s).length := by rw [ha]; omega
  set s1 : App := { s with currentIndex := j } with hs1
  have hact1 : activeOrder s1 = activeOrder s := rfl
  have hget : listGetI (activeOrder s) j
      = some ((activeOrder s)[j.toNat]) := by
    rw [listGetI, if_pos hj0, List.getElem?_eq_getElem hjlt]
  have hmemq : (activeOrder s)[j.toNat] ∈ activeOrder s :=
    List.getElem_mem hjlt
  obtain ⟨t, ht⟩ := Option.isSome_iff_exists.mp (hmem _ hmemq)
  have htid : t.id = (activeOrder s)[j.toNat] := mget_wf_id hwf ht
  have hplay := play_fields s1 (listGetI (activeOrder s1) s1.currentIndex)
  have hbody : playNext s
      = play s1 (listGetI (activeOrder s1) s1.currentIndex) := by
    rw [playNext, if_neg hne, hs1, hmod]
    rfl
  have hidx1 : s1.currentIndex = j := rfl
  have hplay2 : (playNext s).currentTrackId = some t.id := by
    rw [hbody, hact1, hidx1, hget]
    exact play_some_currentTrackId s1 _ t ht
  refine ⟨?_, ?_, ?_, ?_, ?_, ?_⟩
  · rw [hbody]; exact hplay.1
  · rw [hbody]; exact hplay.2.1
  · rw [hbody]; exact hplay.2.2.1
  · rw [hbody]; exact hplay.2.2.2.2.1
  · rw [hbody, hplay.2.2.2.1, hidx1]
  · rw [hplay2, htid, hget]

/-- Iterating `playNext`: the queue data is invariant and the index
advances by `k` modulo `n`. -/
theorem playNext_iter (n : Nat) (h0 : 0 < n) :
    ∀ (k : Nat) (s : App), s.queue.length = n → (activeOrder s).length = n →
    0 ≤ s.currentIndex → s.currentIndex < (n : Int) → LibWF s →
    (∀ id ∈ activeOrder s, (mget s.library id).isSome = true) →
    (playNext^[k] s).currentIndex = (s.currentIndex + k) % (n : Int) ∧
    (0 < k → (playNext^[k] s).currentTrackId
       = listGetI (activeOrder s) ((s.currentIndex + k) % (n : Int))) := by
  intro k
  induction k with
  | zero =>
      intro s hq ha hi0 hin hwf hmem
      constructor
      · simp [Int.emod_eq_of_lt hi0 hin]
      · intro h; omega
  | succ k ih =>
      intro s hq ha hi0 hin hwf hmem
      have hstep := playNext_step s n hq h0 ha hi0 hin hwf hmem
      have hact : activeOrder (playNext s) = activeOrder s := by
        rw [activeOrder, activeOrder, hstep.2.2.1, hstep.1, hstep.2.1]
      have hlib : (playNext s).library = s.library := hstep.2.2.2.1
      have hwf1 : LibWF (playNext s) := by
        intro p hp; rw [hlib] at hp; exact hwf p hp
      have hmem1 : ∀ id ∈ activeOrder (playNext s),
          (mget (playNext s).library id).isSome = true := by
        intro id hid
        rw [hact] at hid
        rw [hlib]
        exact hmem id hid
      have hi1 : (playNext s).currentIndex = (s.currentIndex + 1) % (n : Int) :=
        hstep.2.2.2.2.1
      have hj0 : 0 ≤ (playNext s).currentIndex := by
        rw [hi1]; exact Int.emod_nonneg _ (by omega)
      have hjn : (playNext s).currentIndex < (n : Int) := by
        rw [hi1]; exact Int.emod_lt_of_pos _ (by omega)
      have hq1 : (playNext s).queue.length = n := by rw [hstep.1, hq]
      have ha1 : (activeOrder (playNext s)).length = n := by rw [hact, ha]
      have hrec := ih (playNext s) hq1 ha1 hj0 hjn hwf1 hmem1
      have harith : ((s.currentIndex + 1) % (n : Int) + k) % (n : Int)
          = (s.currentIndex + (k + 1)) % (n : Int) := by
        rw [Int.emod_add_emod]
        congr 1
        ring
      rw [Function.iterate_succ_apply]
      constructor
      · rw [hrec.1, hi1, harith]
        congr 1
      · intro hk
        cases k with
        | zero =>
            simp only [Function.iterate_zero, id_eq]
            rw [hstep.2.2.2.2.2]
            congr 2
        | succ m =>
            rw [hrec.2 (by omega), hact, hi1, harith]
            norm_cast

/-- C6: `playNext` advances and `playPrevious` retreats `currentIndex`
by one modulo the active order's length, wrapping in both directions;
from any in-range index, `n` successive `playNext` calls return to the
starting index and play the starting track, in both shuffled and
unshuffled modes; with an empty queue both calls are no-ops. -/
theorem playNext_playPrevious_cyclic :
    (∀ s : App, s.queue = [] → playNext s = s ∧ playPrevious s = s) ∧
    (∀ (s : App) (n : Nat), s.queue.length = n → 0 < n →
      0 ≤ s.currentIndex → s.currentIndex < (n : Int) →
      (playNext s).currentIndex
        = (if s.currentIndex + 1 = (n : Int) then 0 else s.currentIndex + 1) ∧
      (playPrevious s).currentIndex
        = (if s.currentIndex = 0 then (n : Int) - 1
           else s.currentIndex - 1)) ∧
    (∀ (s : App) (n : Nat), s.queue.length = n → 0 < n →
      (activeOrder s).length = n →
      0 ≤ s.currentIndex → s.currentIndex < (n : Int) → LibWF s →
      (∀ id ∈ activeOrder s, (mget s.library id).isSome = true) →
      (playNext^[n] s).currentIndex = s.currentIndex ∧
      (playNext^[n] s).currentTrackId
        = listGetI (activeOrder s) s.currentIndex) := by
  refine ⟨?_, ?_, ?_⟩
  · intro s h
    constructor
    · rw [playNext, if_pos (by rw [h]; rfl)]
    · rw [playPrevious, if_pos (by rw [h]; rfl)]
  · intro s n hq h0 hi0 hin
    have hne : ¬ (s.queue.length = 0) := by omega
    constructor
    · have hbody : (playNext s).currentIndex
          = jsMod (s.currentIndex + 1) (s.queue.length : Int) := by
        rw [playNext, if_neg hne]
        exact (play_fields _ _).2.2.2.1
      rw [hbody, hq, jsMod, Int.tmod_eq_emod (by omega) (by omega)]
      by_cases hc : s.currentIndex + 1 = (n : Int)
      · rw [if_pos hc, hc]
        simp
      · rw [if_neg hc]
        exact Int.emod_eq_of_lt (by omega) (by omega)
    · have hbody : (playPrevious s).currentIndex
          = jsMod (s.currentIndex - 1 + (s.queue.length : Int))
              (s.queue.length : Int) := by
        rw [playPrevious, if_neg hne]
        exact (play_fields _ _).2.2.2.1
      rw [hbody, hq, jsMod, Int.tmod_eq_emod (by omega) (by omega)]
      by_cases hc : s.currentIndex = 0
      · rw [if_pos hc, hc]
        exact Int.emod_eq_of_lt (by omega) (by omega)
      · rw [if_neg hc]
        have h1 : s.currentIndex - 1 + (n : Int)
            = (s.currentIndex - 1) + 1 * (n : Int) := by ring
        rw [h1, Int.add_mul_emod_self]
        exact Int.emod_eq_of_lt (by omega) (by omega)
  · intro s n hq h0 ha hi0 hin hwf hmem
    have hrec := playNext_iter n h0 n s hq ha hi0 hin hwf hmem
    have harith : (s.currentIndex + (n : Int)) % (n : Int) = s.currentIndex := by
      have h1 : s.currentIndex + (n : Int)
          = s.currentIndex + 1 * (n : Int) := by ring
      rw [h1, Int.add_mul_emod_self]
      exact Int.emod_eq_of_lt hi0 hin
    constructor
    · rw [hrec.1]
      exact_mod_cast harith
    · rw [hrec.2 h0]
      rw [harith]

/-- Three library tracks for concrete playback states. -/
def trk1 : Track :=
  { id := "t1", title := "A", artist := "B", album := "C",
    trackNumber := 1, duration := 10, fileAssetId := some "as1",
    coverAssetId := none, addedAt := 0 }

def trk2 : Track := { trk1 with id := "t2", fileAssetId := some "as2" }

def trk3 : Track := { trk1 with id := "t3", fileAssetId := some "as3" }

/-- A playback state with a three-track queue, shuffle off,
`currentIndex = 1`. -/
def appQ : App :=
  { app0 with
    library := [("t1", trk1), ("t2", trk2), ("t3", trk3)],
    queue := ["t1", "t2", "t3"], shuffledQueue := ["t2", "t1", "t3"],
    currentIndex := 1 }

/-- C6 witness: the empty queue, one step of each direction, and the
full three-step cycle on `appQ`. -/
theorem playNext_playPrevious_cyclic_witness :
    (({ app0 with queue := ([] : List String) } : App).queue = [] ∧
     playNext { app0 with queue := ([] : List String) }
       = { app0 with queue := ([] : List String) } ∧
     playPrevious { app0 with queue := ([] : List String) }
       = { app0 with queue := ([] : List String) }) ∧
    (appQ.queue.length = 3 ∧ 0 < 3 ∧ 0 ≤ appQ.currentIndex ∧
     appQ.currentIndex < (3 : Int) ∧
     (playNext appQ).currentIndex
       = (if appQ.currentIndex + 1 = (3 : Int) then 0
          else appQ.currentIndex + 1) ∧
     (playPrevious appQ).currentIndex
       = (if appQ.currentIndex = 0 then (3 : Int) - 1
          else appQ.currentIndex - 1)) ∧
    ((activeOrder appQ).length = 3 ∧ LibWF appQ ∧
     (∀ id ∈ activeOrder appQ, (mget appQ.library id).isSome = true) ∧
     (playNext^[3] appQ).currentIndex = appQ.currentIndex ∧
     (playNext^[3] appQ).currentTrackId
       = listGetI (activeOrder appQ) appQ.currentIndex) := by
  have h1 := playNext_playPrevious_cyclic.1
    { app0 with queue := ([] : List String) } rfl
  have h2 := playNext_playPrevious_cyclic.2.1 appQ 3 rfl (by norm_num)
    (by decide) (by decide)
  have h3 := playNext_playPrevious_cyclic.2.2 appQ 3 rfl (by norm_num)
    (by decide) (by decide) (by decide) (by decide) (by decide)
  exact ⟨⟨rfl, h1.1, h1.2⟩,
    ⟨rfl, by norm_num, by decide, by decide, h2.1, h2.2⟩,
    ⟨by decide, by decide, by decide, h3.1, h3.2⟩⟩

/-! ## C5 — setQueueAndPlay -/

theorem jsIndexOfAux_eq (x : String) : ∀ (l : List String) (i : Int),
    jsIndexOfAux x l i = if x ∈ l then i + (List.indexOf x l : Int) else -1 := by
  intro l
  induction l with
  | nil => intro i; simp [jsIndexOfAux]
  | cons y ys ih =>
      intro i
      rw [jsIndexOfAux]
      by_cases hy : y = x
      · subst hy
        rw [if_pos rfl, if_pos (List.mem_cons_self y ys),
          List.indexOf_cons_self]
        simp
      · rw [if_neg hy, ih (i + 1)]
        by_cases hmem : x ∈ ys
        · rw [if_pos hmem, if_pos (List.mem_cons.mpr (Or.inr hmem)),
            List.indexOf_cons_ne ys hy]
          push_cast
          ring
        · rw [if_neg hmem, if_neg ?_]
          intro hc
          rcases List.mem_cons.mp hc with hc1 | hc2
          · exact hy hc1.symm
          · exact hmem hc2

theorem jsIndexOf_eq (l : List String) (x : String) :
    jsIndexOf l x = if x ∈ l then (List.indexOf x l : Int) else -1 := by
  rw [jsIndexOf, jsIndexOfAux_eq]
  by_cases hmem : x ∈ l
  · rw [if_pos hmem, if_pos hmem]; ring
  · rw [if_neg hmem, if_neg hmem]

/-- Positions strictly before `indexOf` do not hold the element. -/
theorem indexOf_min (x : String) : ∀ (l : List String) (j : Nat),
    j < List.indexOf x l → l[j]? ≠ some x := by
  intro l
  induction l with
  | nil => intro j hj; simp at hj ⊢
  | cons y ys ih =>
      intro j hj
      by_cases hy : y = x
      · subst hy; rw [List.indexOf_cons_self] at hj; omega
      · rw [List.indexOf_cons_ne ys hy] at hj
        cases j with
        | zero =>
            simp only [List.getElem?_cons_zero]
            intro hc
            exact hy (Option.some.inj hc)
        | succ m =>
            rw [List.getElem?_cons_succ]
            exact ih m (by omega)

/-- When the id resolves in the library and its audio asset resolves in
the asset index, `play` loads the record and starts playing. -/
theorem play_some_loaded (s : App) (id : String) (t : Track)
    (h : mget s.library id = some t)
    (ha : (t.fileAssetId.bind (mget s.assets)).isSome = true) :
    (play s (some id)).currentTrackId = some t.id ∧
    (play s (some id)).isPlaying = true := by
  simp only [play, h]
  unfold loadTrack
  cases h2 : t.fileAssetId.bind
      (mget ({ s with currentTrackId := some id } : App).assets) with
  | none =>
      exfalso
      have h3 : t.fileAssetId.bind (mget s.assets) = none := h2
      rw [h3] at ha
      simp at ha
  | some asset => simp [h2, saveSettings_fst_eq, mediaResume]

theorem shuffleWith_length {keys : List ℚ} {q : List String}
    (h : q.length ≤ keys.length) : (shuffleWith keys q).length = q.length :=
  (shuffleWith_perm h).length_eq

/-- The order searched and played from by `setQueueAndPlay` after the
queue replacement: the fresh shuffled order when shuffle is on, else the
new queue itself. -/
def newActive (s : App) (trackIds : List String) : List String :=
  if s.shuffle then shuffleWith (s.rand.take trackIds.length) trackIds
  else trackIds

/-- The index `setQueueAndPlay` assigns (`indexOf`, or 0 when absent). -/
def sqapIndex (s : App) (trackIds : List String) (startId : String) : Int :=
  if jsIndexOf (newActive s trackIds) startId ≠ -1
  then jsIndexOf (newActive s trackIds) startId else 0

/-- The state passed to `play` inside `setQueueAndPlay`. -/
def sqapState (s : App) (trackIds : List String) (startId : String) : App :=
  { s with
      queue := trackIds,
      shuffledQueue := shuffleWith (s.rand.take trackIds.length) trackIds,
      rand := s.rand.drop trackIds.length,
      currentIndex := sqapIndex s trackIds startId }

theorem setQueueAndPlay_body (s : App) (trackIds : List String)
    (startId : String) :
    setQueueAndPlay s trackIds startId
      = play (sqapState s trackIds startId)
          (listGetI (newActive s trackIds)
            (sqapIndex s trackIds startId)) := rfl

/-- C5: `setQueueAndPlay(trackIds, startId)` replaces the queue,
regenerates the shuffled order from the next random draws (a permutation
of the queue), sets `currentIndex` to the position of `startId` in the
active order — 0 when absent — and begins playback of the track at that
position.  The last conjunct renders "uniform random permutation": over
the canonical rank orders of the per-element draws (each equally likely
for i.i.d. continuous draws), the shuffle is a bijection onto the
permutations of a duplicate-free queue. -/
theorem setQueueAndPlay_spec (s : App) (trackIds : List String)
    (startId : String)
    (hne : trackIds ≠ [])
    (hrand : trackIds.length ≤ s.rand.length)
    (hwf : LibWF s)
    (hmem : ∀ id ∈ trackIds, ∃ t : Track, mget s.library id = some t ∧
        (t.fileAssetId.bind (mget s.assets)).isSome = true) :
    (setQueueAndPlay s trackIds startId).queue = trackIds ∧
    (setQueueAndPlay s trackIds startId).shuffledQueue
      = shuffleWith (s.rand.take trackIds.length) trackIds ∧
    (setQueueAndPlay s trackIds startId).shuffledQueue ~ trackIds ∧
    0 ≤ (setQueueAndPlay s trackIds startId).currentIndex ∧
    (startId ∈ newActive s trackIds →
      (newActive s trackIds)[(setQueueAndPlay s trackIds
          startId).currentIndex.toNat]? = some startId ∧
      ∀ j : Nat, j < (setQueueAndPlay s trackIds startId).currentIndex.toNat
        → (newActive s trackIds)[j]? ≠ some startId) ∧
    (startId ∉ newActive s trackIds →
      (setQueueAndPlay s trackIds startId).currentIndex = 0) ∧
    (setQueueAndPlay s trackIds startId).currentTrackId
      = (newActive s trackIds)[(setQueueAndPlay s trackIds
          startId).currentIndex.toNat]? ∧
    (setQueueAndPlay s trackIds startId).isPlaying = true ∧
    (trackIds.Nodup →
      (∀ r, r ~ trackIds → ∃ ks, ks ~ castRange trackIds.length ∧
          shuffleWith ks trackIds = r) ∧
      (∀ ks ks' : List ℚ, ks ~ castRange trackIds.length →
          ks' ~ castRange trackIds.length →
          shuffleWith ks trackIds = shuffleWith ks' trackIds → ks = ks')) := by
  have hkeyslen : (s.rand.take trackIds.length).length = trackIds.length := by
    rw [List.length_take]; omega
  have hperm : shuffleWith (s.rand.take trackIds.length) trackIds
      ~ trackIds := shuffleWith_perm (le_of_eq hkeyslen.symm)
  have hactlen : (newActive s trackIds).length = trackIds.length := by
    rw [newActive]
    split
    · exact hperm.length_eq
    · rfl
  have hactmem : ∀ id ∈ newActive s trackIds, id ∈ trackIds := by
    intro id hid
    rw [newActive] at hid
    split at hid
    · exact hperm.mem_iff.mp hid
    · exact hid
  have hbody := setQueueAndPlay_body s trackIds startId
  have hplayf := play_fields (sqapState s trackIds startId)
    (listGetI (newActive s trackIds) (sqapIndex s trackIds startId))
  have hq : (setQueueAndPlay s trackIds startId).queue = trackIds := by
    rw [hbody, hplayf.1]; rfl
  have hsq : (setQueueAndPlay s trackIds startId).shuffledQueue
      = shuffleWith (s.rand.take trackIds.length) trackIds := by
    rw [hbody, hplayf.2.1]; rfl
  have hidx : (setQueueAndPlay s trackIds startId).currentIndex
      = sqapIndex s trackIds startId := by
    rw [hbody, hplayf.2.2.2.1]; rfl
  have hidx_mem : startId ∈ newActive s trackIds →
      sqapIndex s trackIds startId
        = (List.indexOf startId (newActive s trackIds) : Int) := by
    intro hm
    rw [sqapIndex, jsIndexOf_eq, if_pos hm, if_pos]
    omega
  have hidx_notmem : startId ∉ newActive s trackIds →
      sqapIndex s trackIds startId = 0 := by
    intro hm
    rw [sqapIndex, jsIndexOf_eq, if_neg hm]
    simp
  have hidx0 : 0 ≤ sqapIndex s trackIds startId := by
    by_cases hm : startId ∈ newActive s trackIds
    · rw [hidx_mem hm]; omega
    · rw [hidx_notmem hm]
  have hlenpos : 0 < trackIds.length := List.length_pos.mpr hne
  have hidxlt : (sqapIndex s trackIds startId).toNat
      < (newActive s trackIds).length := by
    by_cases hm : startId ∈ newActive s trackIds
    · rw [hidx_mem hm]
      have := List.indexOf_lt_length.mpr hm
      omega
    · rw [hidx_notmem hm, hactlen]
      omega
  have hgeti : listGetI (newActive s trackIds) (sqapIndex s trackIds startId)
      = some ((newActive s trackIds)[(sqapIndex s trackIds
          startId).toNat]) := by
    rw [listGetI, if_pos hidx0, List.getElem?_eq_getElem hidxlt]
  have hid0mem : (newActive s trackIds)[(sqapIndex s trackIds
      startId).toNat] ∈ trackIds :=
    hactmem _ (List.getElem_mem hidxlt)
  obtain ⟨t0, ht0, ha0⟩ := hmem _ hid0mem
  have ht0s : mget (sqapState s trackIds startId).library
      ((newActive s trackIds)[(sqapIndex s trackIds startId).toNat])
      = some t0 := ht0
  have ha0s : (t0.fileAssetId.bind
      (mget (sqapState s trackIds startId).assets)).isSome = true := ha0
  have hwfs : LibWF (sqapState s trackIds startId) := fun p hp => hwf p hp
  have hloaded := play_some_loaded (sqapState s trackIds startId) _ t0
    ht0s ha0s
  have ht0id : t0.id
      = (newActive s trackIds)[(sqapIndex s trackIds startId).toNat] :=
    mget_wf_id hwfs ht0s
  refine ⟨hq, hsq, ?_, ?_, ?_, ?_, ?_, ?_, ?_⟩
  · rw [hsq]; exact hperm
  · rw [hidx]; exact hidx0
  · intro hm
    rw [hidx, hidx_mem hm]
    have hlt : List.indexOf startId (newActive s trackIds)
        < (newActive s trackIds).length := List.indexOf_lt_length.mpr hm
    constructor
    · rw [Int.toNat_ofNat, List.getElem?_eq_getElem hlt,
        List.getElem_indexOf hlt]
    · intro j hj
      rw [Int.toNat_ofNat] at hj
      exact indexOf_min startId (newActive s trackIds) j hj
  · intro hm
    rw [hidx, hidx_notmem hm]
  · have hctid : (setQueueAndPlay s trackIds startId).currentTrackId
        = some ((newActive s trackIds)[(sqapIndex s trackIds
            startId).toNat]) := by
      rw [hbody, hgeti, hloaded.1, ht0id]
    rw [hctid, hidx, List.getElem?_eq_getElem hidxlt]
  · rw [hbody, hgeti]
    exact hloaded.2
  · intro hnd
    exact ⟨fun r hr => shuffleWith_rank_surjective hnd hr,
      fun ks ks' h1 h2 he => shuffleWith_rank_injective hnd h1 h2 he⟩

def asset1 : Asset :=
  { id := "as1", type := "audio", blob := 0, filename := "a" }

/-- A library of three resolvable tracks with three pending random
draws. -/
def appQ2 : App :=
  { app0 with
    library := [("t1", trk1), ("t2", trk2), ("t3", trk3)],
    assets := [("as1", asset1), ("as2", { asset1 with id := "as2" }),
               ("as3", { asset1 with id := "as3" })],
    rand := [1/2, 1/4, 3/4] }

/-- C5 witness: `setQueueAndPlay([t1,t2,t3], t2)` on `appQ2`. -/
theorem setQueueAndPlay_spec_witness :
    (["t1", "t2", "t3"] : List String) ≠ [] ∧
    (["t1", "t2", "t3"] : List String).length ≤ appQ2.rand.length ∧
    LibWF appQ2 ∧
    ((setQueueAndPlay appQ2 ["t1", "t2", "t3"] "t2").queue
       = ["t1", "t2", "t3"] ∧
     (setQueueAndPlay appQ2 ["t1", "t2", "t3"] "t2").shuffledQueue
       = shuffleWith (appQ2.rand.take (["t1", "t2", "t3"] : List
           String).length) ["t1", "t2", "t3"] ∧
     (setQueueAndPlay appQ2 ["t1", "t2", "t3"] "t2").shuffledQueue
       ~ ["t1", "t2", "t3"] ∧
     0 ≤ (setQueueAndPlay appQ2 ["t1", "t2", "t3"] "t2").currentIndex ∧
     ("t2" ∈ newActive appQ2 ["t1", "t2", "t3"] →
       (newActive appQ2 ["t1", "t2", "t3"])[(setQueueAndPlay appQ2
           ["t1", "t2", "t3"] "t2").currentIndex.toNat]? = some "t2" ∧
       ∀ j : Nat, j < (setQueueAndPlay appQ2 ["t1", "t2", "t3"]
           "t2").currentIndex.toNat →
         (newActive appQ2 ["t1", "t2", "t3"])[j]? ≠ some "t2") ∧
     ("t2" ∉ newActive appQ2 ["t1", "t2", "t3"] →
       (setQueueAndPlay appQ2 ["t1", "t2", "t3"] "t2").currentIndex = 0) ∧
     (setQueueAndPlay appQ2 ["t1", "t2", "t3"] "t2").currentTrackId
       = (newActive appQ2 ["t1", "t2", "t3"])[(setQueueAndPlay appQ2
           ["t1", "t2", "t3"] "t2").currentIndex.toNat]? ∧
     (setQueueAndPlay appQ2 ["t1", "t2", "t3"] "t2").isPlaying = true ∧
     ((["t1", "t2", "t3"] : List String).Nodup →
       (∀ r, r ~ ["t1", "t2", "t3"] →
         ∃ ks, ks ~ castRange (["t1", "t2", "t3"] : List String).length ∧
           shuffleWith ks ["t1", "t2", "t3"] = r) ∧
       (∀ ks ks' : List ℚ,
         ks ~ castRange (["t1", "t2", "t3"] : List String).length →
         ks' ~ castRange (["t1", "t2", "t3"] : List String).length →
         shuffleWith ks ["t1", "t2", "t3"]
           = shuffleWith ks' ["t1", "t2", "t3"] → ks = ks'))) := by
  refine ⟨by decide, by decide, by decide, ?_⟩
  apply setQueueAndPlay_spec appQ2 ["t1", "t2", "t3"] "t2" (by decide)
    (by decide) (by decide)
  intro id hid
  simp only [List.mem_cons, List.not_mem_nil, or_false] at hid
  rcases hid with h | h | h <;> subst h
  · exact ⟨trk1, rfl, rfl⟩
  · exact ⟨trk2, rfl, rfl⟩
  · exact ⟨trk3, rfl, rfl⟩

/-! ## C1 — deleteTrack cascade -/

/-- `trk1` with a cover asset. -/
def trkC : Track := { trk1 with coverAssetId := some "cov1" }

def coverAsset : Asset :=
  { id := "cov1", type := "image", blob := 7, filename := "cover.jpg" }

def albDel : Album :=
  { id := "al1", name := "C", artist := "B", trackIds := ["t1", "t2"],
    coverAssetId := some "cov1" }

def plDel : Playlist :=
  { id := "pl1", name := "P", trackIds := ["t1", "t2"],
    coverAssetId := none, createdAt := 0 }

/-- A library where `t1` is referenced by an album, a playlist and the
queue, shares its cover with the album, and is the loaded, playing
track. -/
def appDel : App :=
  { app0 with
    library := [("t1", trkC), ("t2", trk2)],
    assets := [("as1", asset1), ("cov1", coverAsset)],
    albums := [("al1", albDel)],
    playlists := [("pl1", plDel)],
    queue := ["t1", "t2"], shuffledQueue := ["t1", "t2"],
    currentTrackId := some "t1", isPlaying := true,
    dTracks := [("t1", trkC)],
    dAssets := [("as1", asset1), ("cov1", coverAsset)],
    rand := [1/2, 1/4] }

/-- C1 counterexample: deleting `t1` leaves its id dangling in the
playlist and the album, removes the cover asset although the album still
references it, and does not stop playback of the deleted current
track. -/
theorem deleteTrack_cascade_cex :
    ((mvalues (deleteTrack appDel "t1").playlists).map
        (fun p => p.trackIds) = [["t1", "t2"]]) ∧
    ((mvalues (deleteTrack appDel "t1").albums).map
        (fun a => a.trackIds) = [["t1", "t2"]]) ∧
    ((mvalues (deleteTrack appDel "t1").albums).map
        (fun a => a.coverAssetId) = [some "cov1"]) ∧
    mget (deleteTrack appDel "t1").assets "cov1" = none ∧
    (deleteTrack appDel "t1").isPlaying = true ∧
    (deleteTrack appDel "t1").currentTrackId = some "t1" ∧
    mget (deleteTrack appDel "t1").library "t1" = none := by
  refine ⟨by decide, by decide, by decide, by decide, by decide,
    by decide, by decide⟩

/-- C1 (amended): with the durable deletes succeeding, `deleteTrack`
removes the track record and its audio asset, removes its cover asset
*unconditionally* (even when an album or playlist still references it),
removes the id from the queue and regenerates the shuffled order as a
permutation of the new queue — but leaves every playlist and album
untouched and does not stop playback (neither `isPlaying` nor
`currentTrackId` changes) even when the deleted track is the loaded
one. -/
theorem deleteTrack_cascade_amended (s : App) (trackId : String)
    (track : Track) (fa ca : String)
    (h : mget s.library trackId = some track)
    (hfa : track.fileAssetId = some fa)
    (hca : track.coverAssetId = some ca)
    (hsched : s.sched = [])
    (hrand : (s.queue.filter (fun id => id ≠ trackId)).length
      ≤ s.rand.length) :
    (deleteTrack s trackId).library = mdel s.library trackId ∧
    (deleteTrack s trackId).assets = mdel (mdel s.assets fa) ca ∧
    (deleteTrack s trackId).dTracks = mdel s.dTracks trackId ∧
    (deleteTrack s trackId).dAssets = mdel (mdel s.dAssets fa) ca ∧
    (deleteTrack s trackId).queue
      = s.queue.filter (fun id => id ≠ trackId) ∧
    (deleteTrack s trackId).shuffledQueue ~ (deleteTrack s trackId).queue ∧
    (deleteTrack s trackId).playlists = s.playlists ∧
    (deleteTrack s trackId).albums = s.albums ∧
    (deleteTrack s trackId).isPlaying = s.isPlaying ∧
    (deleteTrack s trackId).currentTrackId = s.currentTrackId := by
  have hrun : deleteTrack s trackId =
      { s with
        library := mdel s.library trackId,
        assets := mdel (mdel s.assets fa) ca,
        dTracks := mdel s.dTracks trackId,
        dAssets := mdel (mdel s.dAssets fa) ca,
        queue := s.queue.filter (fun id => id ≠ trackId),
        shuffledQueue := shuffleWith
          (s.rand.take (s.queue.filter (fun id => id ≠ trackId)).length)
          (s.queue.filter (fun id => id ≠ trackId)),
        rand := s.rand.drop
          (s.queue.filter (fun id => id ≠ trackId)).length,
        toasts := Toast.msg "Canción eliminada" "success" :: s.toasts } := by
    unfold deleteTrack
    rw [h]
    simp only [deleteTracksStore, deleteAssetsStore, nextOp,
      generateShuffledQueue, showToast, hsched, hfa, hca]
    simp
  rw [hrun]
  refine ⟨rfl, rfl, rfl, rfl, rfl, ?_, rfl, rfl, rfl, rfl⟩
  exact shuffleWith_perm (by rw [List.length_take]; omega)

/-- C1 witness for the amended theorem, on the same populated state. -/
theorem deleteTrack_cascade_amended_witness :
    mget appDel.library "t1" = some trkC ∧
    trkC.fileAssetId = some "as1" ∧ trkC.coverAssetId = some "cov1" ∧
    appDel.sched = [] ∧
    (appDel.queue.filter (fun id => id ≠ "t1")).length
      ≤ appDel.rand.length ∧
    ((deleteTrack appDel "t1").library = mdel appDel.library "t1" ∧
     (deleteTrack appDel "t1").assets
       = mdel (mdel appDel.assets "as1") "cov1" ∧
     (deleteTrack appDel "t1").dTracks = mdel appDel.dTracks "t1" ∧
     (deleteTrack appDel "t1").dAssets
       = mdel (mdel appDel.dAssets "as1") "cov1" ∧
     (deleteTrack appDel "t1").queue
       = appDel.queue.filter (fun id => id ≠ "t1") ∧
     (deleteTrack appDel "t1").shuffledQueue
       ~ (deleteTrack appDel "t1").queue ∧
     (deleteTrack appDel "t1").playlists = appDel.playlists ∧
     (deleteTrack appDel "t1").albums = appDel.albums ∧
     (deleteTrack appDel "t1").isPlaying = appDel.isPlaying ∧
     (deleteTrack appDel "t1").currentTrackId = appDel.currentTrackId) :=
  ⟨by decide, rfl, rfl, rfl, by decide,
   deleteTrack_cascade_amended appDel "t1" trkC "as1" "cov1" (by decide)
     rfl rfl rfl (by decide)⟩

/-! ## C9 — album auto-assignment: assoc-list lemmas -/

theorem map_untouched_of_not_mem {α : Type} (k : String) (v : α)
    (l : List (String × α)) (h : k ∉ l.map Prod.fst) :
    l.map (fun p => if p.1 == k then (k, v) else p) = l := by
  induction l with
  | nil => rfl
  | cons p rest ih =>
      simp only [List.map_cons, List.mem_cons] at h
      push_neg at h
      rw [List.map_cons, if_neg (by simpa using (Ne.symm h.1)), ih h.2]

/-- Updating a present key (under distinct keys) splits the list around
the unique occurrence. -/
theorem mset_split {α : Type} (m : List (String × α)) (k : String) (v : α)
    (hkeys : (m.map Prod.fst).Nodup) (h : mhas m k = true) :
    ∃ l1 w l2, m = l1 ++ (k, w) :: l2 ∧
      mset m k v = l1 ++ (k, v) :: l2 ∧
      k ∉ l1.map Prod.fst ∧ k ∉ l2.map Prod.fst := by
  induction m with
  | nil => simp [mhas] at h
  | cons p rest ih =>
      by_cases hk : p.1 = k
      · refine ⟨[], p.2, rest, ?_, ?_, by simp, ?_⟩
        · simp [← hk]
        · rw [mset, if_pos h, List.map_cons, if_pos (by simpa using hk)]
          simp only [List.nil_append]
          have hrest : k ∉ rest.map Prod.fst := by
            rw [List.map_cons] at hkeys
            rw [← hk]
            exact (List.nodup_cons.mp hkeys).1
          rw [map_untouched_of_not_mem k v rest hrest]
        · rw [List.map_cons] at hkeys
          rw [← hk]
          exact (List.nodup_cons.mp hkeys).1
      · have hrest : mhas rest k = true := by
          rw [mhas] at h
          simp only [List.any_cons] at h
          rcases Bool.or_eq_true_iff.mp h with h1 | h1
          · exact absurd (by simpa using h1) hk
          · exact h1
        have hkeys2 : (rest.map Prod.fst).Nodup := by
          rw [List.map_cons] at hkeys
          exact (List.nodup_cons.mp hkeys).2
        obtain ⟨l1, w, l2, he, hs, h1, h2⟩ := ih hkeys2 hrest
        refine ⟨p :: l1, w, l2, by rw [List.cons_append, ← he], ?_, ?_, h2⟩
        · rw [mset, if_pos h, List.map_cons, if_neg (by simpa using hk)]
          rw [List.cons_append]
          congr 1
          rw [← hs, mset, if_pos hrest]
        · rw [List.map_cons]
          intro hc
          rcases List.mem_cons.mp hc with hc1 | hc2
          · exact hk hc1.symm
          · exact h1 hc2

theorem mget_append_cons {α : Type} (l1 : List (String × α)) (k : String)
    (v : α) (l2 : List (String × α)) (h : k ∉ l1.map Prod.fst) :
    mget (l1 ++ (k, v) :: l2) k = some v := by
  induction l1 with
  | nil => simp [mget]
  | cons p rest ih =>
      rw [List.map_cons] at h
      have hp : ¬ (p.1 = k) := fun hc => h (hc ▸ List.mem_cons_self _ _)
      rw [List.cons_append, mget,
        List.find?_cons_of_neg _ (by simpa using hp)]
      exact ih (fun hc => h (List.mem_cons_of_mem _ hc))

theorem mset_absent {α : Type} (m : List (String × α)) (k : String) (v : α)
    (h : mhas m k = false) : mset m k v = m ++ [(k, v)] := by
  rw [mset, if_neg (by rw [h]; exact Bool.false_ne_true)]

theorem mhas_false_of_not_mem {α : Type} (m : List (String × α))
    (k : String) (h : k ∉ m.map Prod.fst) : mhas m k = false := by
  rw [mhas]
  rw [List.any_eq_false]
  intro p hp
  intro hc
  exact h (List.mem_map.mpr ⟨p, hp, by simpa using hc⟩)

theorem mhas_true_of_mem {α : Type} (m : List (String × α))
    (p : String × α) (hp : p ∈ m) : mhas m p.1 = true := by
  rw [mhas, List.any_eq_true]
  exact ⟨p, hp, by simp⟩

/-- The key of an album record. -/
def albumKeyOfA (a : Album) : String := albumKeyOf a.name a.artist

theorem saveAlbumsStore_fst_albums (s : App) (k : String) (v : Album) :
    (saveAlbumsStore s k v).1.albums = s.albums := by
  unfold saveAlbumsStore nextOp
  cases s.sched with
  | nil => simp
  | cons b r => cases b <;> simp

theorem genId_fst_albums (s : App) : (genId s).1.albums = s.albums := by
  unfold genId
  cases s.ids <;> simp

theorem albumAppend_id (a : Album) (t : Track) :
    (albumAppend a t).id = a.id := by
  unfold albumAppend
  dsimp only
  split
  · rfl
  · split <;> rfl

theorem albumAppend_name (a : Album) (t : Track) :
    (albumAppend a t).name = a.name := by
  unfold albumAppend
  dsimp only
  split
  · rfl
  · split <;> rfl

theorem albumAppend_artist (a : Album) (t : Track) :
    (albumAppend a t).artist = a.artist := by
  unfold albumAppend
  dsimp only
  split
  · rfl
  · split <;> rfl

theorem albumAppend_key (a : Album) (t : Track) :
    albumKeyOfA (albumAppend a t) = albumKeyOfA a := by
  rw [albumKeyOfA, albumKeyOfA, albumAppend_name, albumAppend_artist]

theorem albumAppend_trackIds (a : Album) (t : Track) :
    (albumAppend a t).trackIds
      = (if t.id ∈ a.trackIds then a.trackIds
         else a.trackIds ++ [t.id]) := by
  unfold albumAppend
  dsimp only
  by_cases hmem : t.id ∈ a.trackIds
  · rw [if_pos (by simpa using hmem), if_pos hmem]
  · rw [if_neg (by simpa using hmem), if_neg hmem]
    split <;> rfl

theorem albumAppend_cover (a : Album) (t : Track) :
    (albumAppend a t).coverAssetId
      = (if t.id ∉ a.trackIds ∧ a.coverAssetId = none
            ∧ t.coverAssetId ≠ none
         then t.coverAssetId else a.coverAssetId) := by
  unfold albumAppend
  dsimp only
  by_cases hmem : t.id ∈ a.trackIds
  · rw [if_pos (by simpa using hmem),
      if_neg (by intro hc; exact hc.1 hmem)]
  · rw [if_neg (by simpa using hmem)]
    by_cases hcov : a.coverAssetId = none ∧ t.coverAssetId ≠ none
    · rw [if_pos hcov, if_pos ⟨hmem, hcov⟩]
    · rw [if_neg hcov, if_neg (by intro hc; exact hcov ⟨hc.2.1, hc.2.2⟩)]

theorem albumAppend_nodup (a : Album) (t : Track)
    (h : a.trackIds.Nodup) : (albumAppend a t).trackIds.Nodup := by
  rw [albumAppend_trackIds]
  by_cases hmem : t.id ∈ a.trackIds
  · rwa [if_pos hmem]
  · rw [if_neg hmem]
    exact List.Nodup.append h (List.nodup_singleton _)
      (List.disjoint_singleton.mpr hmem)

/-- Replacing the middle element with one of equal-or-fresh key keeps
keys pairwise distinct, provided the new key clashes with no other
element. -/
theorem pairwise_key_replace {v1 v2 : List Album} {w a' : Album}
    (hnew : ∀ b ∈ v1 ++ v2, albumKeyOfA b ≠ albumKeyOfA a')
    (h : (v1 ++ w :: v2).Pairwise
      (fun x y => albumKeyOfA x ≠ albumKeyOfA y)) :
    (v1 ++ a' :: v2).Pairwise
      (fun x y => albumKeyOfA x ≠ albumKeyOfA y) := by
  rw [List.pairwise_append] at h ⊢
  obtain ⟨h1, h2, h3⟩ := h
  rw [List.pairwise_cons] at h2 ⊢
  refine ⟨h1, ⟨?_, h2.2⟩, ?_⟩
  · intro b hb
    exact (hnew b (List.mem_append.mpr (Or.inr hb))).symm
  · intro x hx b hb
    rcases List.mem_cons.mp hb with rfl | hb2
    · exact hnew x (List.mem_append.mpr (Or.inl hx))
    · exact h3 x hx b (List.mem_cons_of_mem _ hb2)

theorem updateAlbumAndArtist_albums_found (s : App) (track : Track)
    (a : Album)
    (hfind : (mvalues s.albums).find?
      (fun b => albumKeyOf b.name b.artist
        == albumKeyOf track.album track.artist) = some a) :
    (updateAlbumAndArtist s track).1.albums
      = mset s.albums (albumAppend a track).id (albumAppend a track) := by
  simp only [updateAlbumAndArtist]
  rw [hfind]
  simp only [saveAlbumsStore_fst_albums]

theorem updateAlbumAndArtist_albums_none (s : App) (track : Track)
    (hfind : (mvalues s.albums).find?
      (fun b => albumKeyOf b.name b.artist
        == albumKeyOf track.album track.artist) = none) :
    (updateAlbumAndArtist s track).1.albums
      = mset s.albums
          (albumAppend (newAlbumFor (genId s).2 track) track).id
          (albumAppend (newAlbumFor (genId s).2 track) track) := by
  simp only [updateAlbumAndArtist]
  rw [hfind]
  rcases hg : genId s with ⟨s1, f1⟩
  have halb : s1.albums = s.albums := by
    have h1 := genId_fst_albums s
    rw [hg] at h1
    exact h1
  have hf : (genId s).2 = f1 := by rw [hg]
  simp only [saveAlbumsStore_fst_albums, halb, hf]

/-- The created album, fully evaluated. -/
theorem albumAppend_newAlbumFor (f : String) (track : Track) :
    albumAppend (newAlbumFor f track) track
      = { id := f, name := track.album, artist := track.artist,
          trackIds := [track.id], coverAssetId := track.coverAssetId } := by
  unfold albumAppend newAlbumFor
  dsimp only
  rw [if_neg (by simp), if_neg (fun hc => hc.2 hc.1)]
  simp

theorem mvalues_append_cons {α : Type} (l1 : List (String × α))
    (k : String) (v : α) (l2 : List (String × α)) :
    mvalues (l1 ++ (k, v) :: l2) = mvalues l1 ++ v :: mvalues l2 := by
  simp [mvalues]

/-- C9 (amended): the album table's key is the case-normalized *joined*
string `name + "|" + artist`, not the pair — so two distinct (album,
artist) pairs whose joined forms coincide (a field containing "|") are
treated as the same album.  With the albums well-keyed, key-distinct and
one-per-joined-key: the invariant is preserved; an import whose joined
key matches an existing Album appends the Track id to it (only if not
already present, keeping the list duplicate-free), creates no second
Album, and sets the Album's cover from the Track's cover only if the
Album had none (and the id was newly appended); when no joined key
matches, a new Album is created under a fresh id carrying the track's
album/artist/cover and exactly its id. -/
theorem album_joined_key_amended (s : App) (track : Track)
    (hwfa : ∀ p ∈ s.albums, (p.2).id = p.1)
    (hkeys : (s.albums.map Prod.fst).Nodup)
    (hinv : (mvalues s.albums).Pairwise
      (fun x y => albumKeyOfA x ≠ albumKeyOfA y)) :
    ((mvalues (updateAlbumAndArtist s track).1.albums).Pairwise
      (fun x y => albumKeyOfA x ≠ albumKeyOfA y)) ∧
    (∀ a : Album, (mvalues s.albums).find?
        (fun b => albumKeyOf b.name b.artist
          == albumKeyOf track.album track.artist) = some a →
      (mvalues (updateAlbumAndArtist s track).1.albums).length
        = (mvalues s.albums).length ∧
      ∃ a', mget (updateAlbumAndArtist s track).1.albums a.id = some a' ∧
        a'.name = a.name ∧ a'.artist = a.artist ∧
        a'.trackIds = (if track.id ∈ a.trackIds then a.trackIds
                       else a.trackIds ++ [track.id]) ∧
        a'.coverAssetId
          = (if track.id ∉ a.trackIds ∧ a.coverAssetId = none
                ∧ track.coverAssetId ≠ none
             then track.coverAssetId else a.coverAssetId) ∧
        (a.trackIds.Nodup → a'.trackIds.Nodup)) ∧
    ((mvalues s.albums).find?
        (fun b => albumKeyOf b.name b.artist
          == albumKeyOf track.album track.artist) = none →
      (genId s).2 ∉ s.albums.map Prod.fst →
      (mvalues (updateAlbumAndArtist s track).1.albums).length
        = (mvalues s.albums).length + 1 ∧
      mget (updateAlbumAndArtist s track).1.albums (genId s).2
        = some { id := (genId s).2, name := track.album,
                 artist := track.artist, trackIds := [track.id],
                 coverAssetId := track.coverAssetId }) := by
  cases hf : (mvalues s.albums).find?
      (fun b => albumKeyOf b.name b.artist
        == albumKeyOf track.album track.artist) with
  | some a =>
      have hpred := List.find?_some hf
      have hkey : albumKeyOfA a = albumKeyOf track.album track.artist := by
        simpa [albumKeyOfA] using hpred
      have ham : a ∈ mvalues s.albums := List.mem_of_find?_eq_some hf
      obtain ⟨p, hp, hp2⟩ := List.mem_map.mp ham
      obtain ⟨p1, p2⟩ := p
      have hid1 : p2.id = p1 := hwfa (p1, p2) hp
      have hp2a : p2 = a := hp2
      have hpa : (a.id, a) ∈ s.albums := by
        rw [← hp2a, hid1]
        exact hp
      have hmh : mhas s.albums a.id = true := by
        have h1 := mhas_true_of_mem s.albums (a.id, a) hpa
        simpa using h1
      obtain ⟨l1, w, l2, hm, hms, hk1, hk2⟩ :=
        mset_split s.albums a.id (albumAppend a track) hkeys hmh
      have hw : w = a := by
        have hmem2 : (a.id, a) ∈ l1 ++ (a.id, w) :: l2 := hm ▸ hpa
        rcases List.mem_append.mp hmem2 with h1 | h1
        · exact absurd (List.mem_map.mpr ⟨_, h1, rfl⟩) hk1
        · rcases List.mem_cons.mp h1 with h2 | h2
          · exact ((Prod.mk.injEq _ _ _ _).mp h2.symm).2
          · exact absurd (List.mem_map.mpr ⟨_, h2, rfl⟩) hk2
      rw [hw] at hm
      have halb := updateAlbumAndArtist_albums_found s track a hf
      rw [albumAppend_id] at halb
      rw [hms] at halb
      have hinv2 : (mvalues l1 ++ a :: mvalues l2).Pairwise
          (fun x y => albumKeyOfA x ≠ albumKeyOfA y) := by
        rw [← mvalues_append_cons, ← hm]
        exact hinv
      have hnew : ∀ b ∈ mvalues l1 ++ mvalues l2,
          albumKeyOfA b ≠ albumKeyOfA (albumAppend a track) := by
        rw [albumAppend_key]
        have hinv3 := hinv2
        rw [List.pairwise_append] at hinv3
        obtain ⟨hv1, hv2, hcross⟩ := hinv3
        rw [List.pairwise_cons] at hv2
        intro b hb
        rcases List.mem_append.mp hb with hb1 | hb1
        · exact hcross b hb1 a (List.mem_cons_self _ _)
        · exact (hv2.1 b hb1).symm
      refine ⟨?_, ?_, ?_⟩
      · rw [halb, mvalues_append_cons]
        exact pairwise_key_replace hnew hinv2
      · intro a0 ha0
        have ha0a : a = a0 := Option.some.inj ha0
        subst ha0a
        constructor
        · rw [halb, mvalues_append_cons, hm, mvalues_append_cons]
          simp
        · refine ⟨albumAppend a track, ?_, albumAppend_name a track,
            albumAppend_artist a track, albumAppend_trackIds a track,
            albumAppend_cover a track, albumAppend_nodup a track⟩
          rw [halb]
          exact mget_append_cons l1 a.id (albumAppend a track) l2 hk1
      · intro h3
        simp at h3
  | none =>
      have hkeynew : albumKeyOfA (albumAppend
          (newAlbumFor (genId s).2 track) track)
          = albumKeyOf track.album track.artist := by
        rw [albumAppend_key]
        rfl
      have hnokey : ∀ b ∈ mvalues s.albums,
          albumKeyOfA b ≠ albumKeyOf track.album track.artist := by
        intro b hb
        have h1 := List.find?_eq_none.mp hf b hb
        simpa [albumKeyOfA] using h1
      have halb := updateAlbumAndArtist_albums_none s track hf
      have hid2 : (albumAppend (newAlbumFor (genId s).2 track) track).id
          = (genId s).2 := by
        rw [albumAppend_id]
        rfl
      rw [hid2] at halb
      refine ⟨?_, ?_, ?_⟩
      · by_cases hmh : mhas s.albums ((genId s).2) = true
        · obtain ⟨l1, w, l2, hm, hms, hk1, hk2⟩ := mset_split s.albums
            ((genId s).2)
            (albumAppend (newAlbumFor (genId s).2 track) track) hkeys hmh
          rw [halb, hms, mvalues_append_cons]
          have hinv2 : (mvalues l1 ++ w :: mvalues l2).Pairwise
              (fun x y => albumKeyOfA x ≠ albumKeyOfA y) := by
            rw [← mvalues_append_cons, ← hm]
            exact hinv
          apply pairwise_key_replace ?_ hinv2
          intro b hb
          rw [hkeynew]
          apply hnokey
          rw [hm, mvalues_append_cons]
          rcases List.mem_append.mp hb with hb1 | hb1
          · exact List.mem_append.mpr (Or.inl hb1)
          · exact List.mem_append.mpr
              (Or.inr (List.mem_cons_of_mem _ hb1))
        · have hmh2 : mhas s.albums ((genId s).2) = false := by
            cases h2 : mhas s.albums ((genId s).2) with
            | true => exact absurd h2 hmh
            | false => rfl
          rw [halb, mset_absent _ _ _ hmh2]
          have hvals : mvalues (s.albums
              ++ [((genId s).2,
                  albumAppend (newAlbumFor (genId s).2 track) track)])
              = mvalues s.albums
                ++ [albumAppend (newAlbumFor (genId s).2 track) track] := by
            simp [mvalues]
          rw [hvals, List.pairwise_append]
          refine ⟨hinv, List.pairwise_singleton _ _, ?_⟩
          intro x hx y hy
          rcases List.mem_singleton.mp hy with rfl
          rw [hkeynew]
          exact hnokey x hx
      · intro a0 ha0
        simp at ha0
      · intro _ hfresh
        have hmh2 : mhas s.albums ((genId s).2) = false :=
          mhas_false_of_not_mem _ _ hfresh
        rw [halb, mset_absent _ _ _ hmh2]
        constructor
        · simp [mvalues]
        · have h4 : s.albums
              ++ [((genId s).2,
                  albumAppend (newAlbumFor (genId s).2 track) track)]
              = s.albums
                ++ ((genId s).2,
                  albumAppend (newAlbumFor (genId s).2 track) track)
                  :: [] := rfl
          rw [h4, mget_append_cons s.albums _ _ [] hfresh,
            albumAppend_newAlbumFor]

def mdPipe1 : FileMeta :=
  { title := some "T1", artist := some "z", album := some "x|y",
    trackNo := some 1, duration := some 100, picture := none }

def filePipe1 : MFile :=
  { name := "a.mp3", mime := "audio/mpeg", blob := 1, meta := some mdPipe1,
    fallbackDuration := none, freshId1 := "t1", freshId2 := "t1f", now := 5 }

def mdPipe2 : FileMeta :=
  { title := some "T2", artist := some "y|z", album := some "x",
    trackNo := some 1, duration := some 90, picture := none }

def filePipe2 : MFile :=
  { name := "b.mp3", mime := "audio/mpeg", blob := 2, meta := some mdPipe2,
    fallbackDuration := none, freshId1 := "t2", freshId2 := "t2f", now := 6 }

def app9 : App := { app0 with ids := ["A1", "A2"] }

/-- C9 counterexample: the second import's (album, artist) pair
`("x", "y|z")` matches no existing Album's pair — the only Album is
`("x|y", "z")` — yet no new Album is created: the joined keys
`"x|y|z"` collide, so the track is appended to the pair-mismatched
Album. -/
theorem album_natural_key_cex :
    (mvalues (processFile (processFile app9 filePipe1).1
        filePipe2).1.albums).map
      (fun a => (a.name, a.artist, a.trackIds))
      = [("x|y", "z", ["t1", "t2"])] ∧
    (("x" : String), ("y|z" : String)) ≠ (("x|y" : String), ("z" : String))
      := by
  refine ⟨by decide, by decide⟩

def albW : Album :=
  { id := "al1", name := "C", artist := "B", trackIds := ["t1"],
    coverAssetId := none }

def app9w : App := { app0 with albums := [("al1", albW)], ids := ["A9"] }

/-- C9 witness for the amended theorem: importing `trk2`
(album "C", artist "B") into a library whose single Album has the same
joined key. -/
theorem album_joined_key_amended_witness :
    (∀ p ∈ app9w.albums, (p.2).id = p.1) ∧
    (app9w.albums.map Prod.fst).Nodup ∧
    ((mvalues app9w.albums).Pairwise
      (fun x y => albumKeyOfA x ≠ albumKeyOfA y)) ∧
    (((mvalues (updateAlbumAndArtist app9w trk2).1.albums).Pairwise
        (fun x y => albumKeyOfA x ≠ albumKeyOfA y)) ∧
     (∀ a : Album, (mvalues app9w.albums).find?
         (fun b => albumKeyOf b.name b.artist
           == albumKeyOf trk2.album trk2.artist) = some a →
       (mvalues (updateAlbumAndArtist app9w trk2).1.albums).length
         = (mvalues app9w.albums).length ∧
       ∃ a', mget (updateAlbumAndArtist app9w trk2).1.albums a.id
           = some a' ∧
         a'.name = a.name ∧ a'.artist = a.artist ∧
         a'.trackIds = (if trk2.id ∈ a.trackIds then a.trackIds
                        else a.trackIds ++ [trk2.id]) ∧
         a'.coverAssetId
           = (if trk2.id ∉ a.trackIds ∧ a.coverAssetId = none
                 ∧ trk2.coverAssetId ≠ none
              then trk2.coverAssetId else a.coverAssetId) ∧
         (a.trackIds.Nodup → a'.trackIds.Nodup)) ∧
     ((mvalues app9w.albums).find?
         (fun b => albumKeyOf b.name b.artist
           == albumKeyOf trk2.album trk2.artist) = none →
       (genId app9w).2 ∉ app9w.albums.map Prod.fst →
       (mvalues (updateAlbumAndArtist app9w trk2).1.albums).length
         = (mvalues app9w.albums).length + 1 ∧
       mget (updateAlbumAndArtist app9w trk2).1.albums (genId app9w).2
         = some { id := (genId app9w).2, name := trk2.album,
                  artist := trk2.artist, trackIds := [trk2.id],
                  coverAssetId := trk2.coverAssetId })) :=
  ⟨by decide, by decide, by decide,
   album_joined_key_amended app9w trk2 (by decide) (by decide) (by decide)⟩

/-! ## C2 — durable-first ordering: store-step lemmas -/

theorem saveTracksStore_fst_eq (s : App) (k : String) (v : Track) :
    (saveTracksStore s k v).1 =
      { s with sched := s.sched.tail,
               dTracks := if s.sched.head?.getD false then s.dTracks
                          else mset s.dTracks k v } := by
  unfold saveTracksStore nextOp
  cases h : s.sched with
  | nil => simp [h]
  | cons b r => cases b <;> simp [h]

theorem saveTracksStore_snd (s : App) (k : String) (v : Track) :
    (saveTracksStore s k v).2 = !(s.sched.head?.getD false) := by
  unfold saveTracksStore nextOp
  cases h : s.sched with
  | nil => simp [h]
  | cons b r => cases b <;> simp [h]

theorem saveAssetsStore_fst_eq (s : App) (k : String) (v : Asset) :
    (saveAssetsStore s k v).1 =
      { s with sched := s.sched.tail,
               dAssets := if s.sched.head?.getD false then s.dAssets
                          else mset s.dAssets k v } := by
  unfold saveAssetsStore nextOp
  cases h : s.sched with
  | nil => simp [h]
  | cons b r => cases b <;> simp [h]

theorem saveAssetsStore_snd (s : App) (k : String) (v : Asset) :
    (saveAssetsStore s k v).2 = !(s.sched.head?.getD false) := by
  unfold saveAssetsStore nextOp
  cases h : s.sched with
  | nil => simp [h]
  | cons b r => cases b 
 <;> simp [h]

theorem deleteTracksStore_fst_eq (s : App) (k : String) :
    (deleteTracksStore s k).1 =
      { s with sched := s.sched.tail,
               dTracks := if s.sched.head?.getD false then s.dTracks
                          else mdel s.dTracks k } := by
  unfold deleteTracksStore nextOp
  cases h : s.sched with
  | nil => simp [h]
  | cons b r => cases b <;> simp [h]

theorem deleteAssetsStore_fst_eq (s : App) (k : String) :
    (deleteAssetsStore s k).1 =
      { s with sched := s.sched.tail,
               dAssets := if s.sched.head?.getD false then s.dAssets
                          else mdel s.dAssets k } := by
  unfold deleteAssetsStore nextOp
  cases h : s.sched with
  | nil => simp [h]
  | cons b r => cases b <;> simp [h]

theorem mget_cons {α : Type} (p : String × α) (rest : List (String × α))
    (k : String) :
    mget (p :: rest) k = if p.1 == k then some p.2 else mget rest k := by
  rw [mget]
  by_cases hp : (p.1 == k) = true
  · have h1 : List.find? (fun q : String × α => q.1 == k) (p :: rest) = some p :=
      List.find?_cons_of_pos _ hp
    rw [h1, if_pos hp]
    rfl
  · have h1 : List.find? (fun q : String × α => q.1 == k) (p :: rest) =
        List.find? (fun q : String × α => q.1 == k) rest :=
      List.find?_cons_of_neg _ hp
    rw [h1, if_neg hp]
    rfl

theorem genId_fst_eq (s : App) :
    (genId s).1 = { s with ids := s.ids.tail } := by
  unfold genId
  cases h : s.ids with
  | nil =>
      simp only [h, List.tail_nil]
      rw [show ([] : List String) = s.ids from h.symm]
  | cons i r => simp [h]

theorem mget_map_replace {α : Type} (k : String) (v : α) :
    ∀ m : List (String × α), mhas m k = true →
    mget (m.map (fun p => if p.1 == k then (k, v) else p)) k = some v := by
  intro m
  induction m with
  | nil => intro h; simp [mhas] at h
  | cons p rest ih =>
      intro h
      rw [List.map_cons]
      by_cases hp : (p.1 == k) = true
      · rw [if_pos hp]
        simp [mget]
      · rw [if_neg hp]
        have hrest : mhas rest k = true := by
          rw [mhas, List.any_cons] at h
          rcases Bool.or_eq_true_iff.mp h with h1 | h1
          · exact absurd h1 hp
          · exact h1
        rw [mget, List.find?_cons_of_neg _ (by simpa using hp)]
        exact ih hrest

theorem mget_mset_self {α : Type} (m : List (String × α)) (k : String)
    (v : α) : mget (mset m k v) k = some v := by
  by_cases h : mhas m k = true
  · rw [mset, if_pos h]
    exact mget_map_replace k v m h
  · have h2 : mhas m k = false := by
      cases h3 : mhas m k with
      | true => exact absurd h3 h
      | false => rfl
    rw [mset_absent m k v h2]
    have hk : k ∉ m.map Prod.fst := by
      intro hc
      obtain ⟨p, hp, hp2⟩ := List.mem_map.mp hc
      rw [mhas, List.any_eq_false] at h2
      exact h2 p hp (by simpa using hp2)
    have h4 : m ++ [(k, v)] = m ++ (k, v) :: [] := rfl
    rw [h4]
    exact mget_append_cons m k v [] hk

theorem mget_mset_other {α : Type} (m : List (String × α)) (k k0 : String)
    (v : α) (hne : k0 ≠ k) : mget (mset m k v) k0 = mget m k0 := by
  by_cases h : mhas m k = true
  · rw [mset, if_pos h]
    clear h
    induction m with
    | nil => rfl
    | cons p rest ih =>
        rw [List.map_cons]
        by_cases hp : (p.1 == k) = true
        · have hpk : p.1 = k := by simpa using hp
          rw [if_pos hp, mget_cons, mget_cons,
            if_neg (by simpa using (Ne.symm hne)),
            if_neg (by rw [hpk]; simpa using (Ne.symm hne))]
          exact ih
        · rw [if_neg hp, mget_cons, mget_cons]
          by_cases hq : (p.1 == k0) = true
          · rw [if_pos hq, if_pos hq]
          · rw [if_neg hq, if_neg hq]
            exact ih
  · have h2 : mhas m k = false := by
      cases h3 : mhas m k with
      | true => exact absurd h3 h
      | false => rfl
    rw [mset_absent m k v h2, mget, List.find?_append]
    cases hf : m.find? (fun p => p.1 == k0) with
    | some p => simp [mget, hf]
    | none =>
        have hkk : (k == k0) = false := by
          simp only [beq_eq_false_iff_ne]
          exact fun hc => hne hc.symm
        simp [mget, hf, List.find?, hkk]

theorem mget_mdel_self {α : Type} (m : List (String × α)) (k : String) :
    mget (mdel m k) k = none := by
  induction m with
  | nil => rfl
  | cons p rest ih =>
      rw [mdel, List.filter]
      by_cases hp : (p.1 != k) = true
      · rw [hp]
        rw [mget, List.find?_cons_of_neg _ (by simpa using hp)]
        exact ih
      · have hp2 : (p.1 != k) = false := by
          cases h3 : (p.1 != k) with
          | true => exact absurd h3 hp
          | false => rfl
        rw [hp2]
        exact ih

theorem strAppend_left_cancel {p a b : String} (h : p ++ a = p ++ b) :
    a = b := by
  have h1 : (p ++ a).data = (p ++ b).data := by rw [h]
  rw [String.data_append, String.data_append] at h1
  have h2 := List.append_cancel_left h1
  exact String.ext h2

theorem asset_ne_cover (x y : String) :
    ("asset_" ++ x) ≠ ("cover_" ++ y) := by
  intro h
  have h1 : ("asset_" ++ x).data = ("cover_" ++ y).data := by rw [h]
  rw [String.data_append, String.data_append] at h1
  simp at h1

/-! ## C2 — the durable-first invariant -/

/-- `Covers mem dur`: every entry of the in-memory map `mem` also sits,
with the same value, in the durable map `dur`. -/
def Covers {α : Type} (mem dur : List (String × α)) : Prop :=
  ∀ k v, mget mem k = some v → mget dur k = some v

/-- Specification predicate for C2: the in-memory library is covered by
the durable tracks store (memory is only written after — never before —
the matching durable write). -/
def TracksDurable (s : App) : Prop := Covers s.library s.dTracks

/-- Specification predicate for C2: the in-memory asset index is covered
by the durable assets store. -/
def AssetsDurable (s : App) : Prop := Covers s.assets s.dAssets

/-- The in-memory index (tracks and assets) is covered by the durable
store. -/
def IndexDurable (s : App) : Prop := TracksDurable s ∧ AssetsDurable s

/-- The freshness guarantees `generateId()` provides in practice: the two
candidate ids drawn for a file are distinct, and no key derived from them
is already taken in the in-memory index. -/
def FreshFor (s : App) (f : MFile) : Prop :=
  f.freshId1 ≠ f.freshId2 ∧
  mget s.library f.freshId1 = none ∧
  mget s.library f.freshId2 = none ∧
  mget s.assets ("asset_" ++ f.freshId1) = none ∧
  mget s.assets ("asset_" ++ f.freshId2) = none ∧
  mget s.assets ("cover_" ++ f.freshId1) = none

theorem covers_nil {α : Type} (dur : List (String × α)) : Covers [] dur := by
  intro k v h0
  simp [mget] at h0

theorem indexDurable_nil (s : App) (h1 : s.library = [])
    (h2 : s.assets = []) : IndexDurable s :=
  ⟨fun k v h0 => absurd (h1 ▸ h0) (by simp [mget]),
   fun k v h0 => absurd (h2 ▸ h0) (by simp [mget])⟩

/-- A durable write at a key absent from memory cannot break `Covers`. -/
theorem covers_dwrite {α : Type} {mem dur : List (String × α)} {k : String}
    {v : α} (h : Covers mem dur) (hfresh : mget mem k = none) :
    Covers mem (mset dur k v) := by
  intro k0 v0 h0
  by_cases he : k0 = k
  · rw [he, hfresh] at h0
    exact Option.noConfusion h0
  · rw [mget_mset_other dur k k0 v he]
    exact h k0 v0 h0

/-- A memory write whose value already sits durably at the same key
preserves `Covers`. -/
theorem covers_mwrite {α : Type} {mem dur : List (String × α)} {k : String}
    {v : α} (h : Covers mem dur) (hd : mget dur k = some v) :
    Covers (mset mem k v) dur := by
  intro k0 v0 h0
  by_cases he : k0 = k
  · subst he
    rw [mget_mset_self] at h0
    injection h0 with hv
    rw [← hv]
    exact hd
  · rw [mget_mset_other mem k k0 v he] at h0
    exact h k0 v0 h0

/-- The invariant only reads four fields. -/
theorem indexDurable_fields (s s' : App) (h : IndexDurable s)
    (h1 : s'.library = s.library) (h2 : s'.assets = s.assets)
    (h3 : s'.dTracks = s.dTracks) (h4 : s'.dAssets = s.dAssets) :
    IndexDurable s' := by
  obtain ⟨hT, hA⟩ := h
  constructor
  · intro k v h0
    rw [h3]
    exact hT k v (h1 ▸ h0)
  · intro k v h0
    rw [h4]
    exact hA k v (h2 ▸ h0)

theorem saveAlbumsStore_fst_eq (s : App) (k : String) (v : Album) :
    (saveAlbumsStore s k v).1 =
      { s with sched := s.sched.tail,
               dAlbums := if s.sched.head?.getD false then s.dAlbums
                          else mset s.dAlbums k v } := by
  unfold saveAlbumsStore nextOp
  cases h : s.sched with
  | nil => simp [h]
  | cons b r => cases b <;> simp [h]

theorem deleteTracksStore_snd (s : App) (k : String) :
    (deleteTracksStore s k).2 = !(s.sched.head?.getD false) := by
  unfold deleteTracksStore nextOp
  cases h : s.sched with
  | nil => simp [h]
  | cons b r => cases b <;> simp [h]

theorem deleteAssetsStore_snd (s : App) (k : String) :
    (deleteAssetsStore s k).2 = !(s.sched.head?.getD false) := by
  unfold deleteAssetsStore nextOp
  cases h : s.sched with
  | nil => simp [h]
  | cons b r => cases b <;> simp [h]

/-- `updateAlbumAndArtist` never touches the library, the in-memory
assets, or the durable tracks/assets stores (it only moves albums, the
id oracle, the schedule and `dAlbums`). -/
theorem updateAlbumAndArtist_fst_fields (s : App) (track : Track) :
    (updateAlbumAndArtist s track).1.library = s.library ∧
    (updateAlbumAndArtist s track).1.assets = s.assets ∧
    (updateAlbumAndArtist s track).1.dTracks = s.dTracks ∧
    (updateAlbumAndArtist s track).1.dAssets = s.dAssets := by
  simp only [updateAlbumAndArtist]
  cases hf : (mvalues s.albums).find?
      (fun a => albumKeyOf a.name a.artist
        == albumKeyOf track.album track.artist) with
  | some a =>
      rw [saveAlbumsStore_fst_eq]
      exact ⟨rfl, rfl, rfl, rfl⟩
  | none =>
      rcases hg : genId s with ⟨s1, f1⟩
      have h1 := genId_fst_eq s
      rw [hg] at h1
      rw [saveAlbumsStore_fst_eq, h1]
      exact ⟨rfl, rfl, rfl, rfl⟩

/-- The common tail of both `processFile` paths: the album update and the
final success test preserve the invariant. -/
theorem indexDurable_album_ite (s3 : App) (trk : Track) (T : Toast)
    (h : IndexDurable s3) :
    IndexDurable (if (updateAlbumAndArtist s3 trk).2 = false
        then (showToast (updateAlbumAndArtist s3 trk).1 T, false)
        else ((updateAlbumAndArtist s3 trk).1, true)).1 := by
  have hff := updateAlbumAndArtist_fst_fields s3 trk
  have hU : IndexDurable (updateAlbumAndArtist s3 trk).1 :=
    indexDurable_fields s3 _ h hff.1 hff.2.1 hff.2.2.1 hff.2.2.2
  split
  · exact hU
  · exact hU

theorem fallback_preserves (s : App) (f : MFile)
    (hI : IndexDurable s)
    (hl : mget s.library f.freshId2 = none)
    (ha : mget s.assets ("asset_" ++ f.freshId2) = none) :
    IndexDurable (processFileFallback s f).1 := by
  obtain ⟨hT, hA⟩ := hI
  unfold processFileFallback
  cases hd : f.fallbackDuration with
  | none => exact ⟨hT, hA⟩
  | some d =>
      dsimp only
      by_cases h1 : s.sched.head?.getD false = true
      · simp [saveTracksStore_snd, saveTracksStore_fst_eq, h1]
        exact ⟨hT, hA⟩
      · have h1' : s.sched.head?.getD false = false := by
          cases hx : s.sched.head?.getD false with
          | true => exact absurd hx h1
          | false => rfl
        simp [saveTracksStore_snd, saveTracksStore_fst_eq, h1']
        by_cases h2 : s.sched[1]?.getD false = true
        · simp [saveAssetsStore_snd, saveAssetsStore_fst_eq, h2]
          exact ⟨covers_dwrite hT hl, hA⟩
        · have h2' : s.sched[1]?.getD false = false := by
            cases hx : s.sched[1]?.getD false with
            | true => exact absurd hx h2
            | false => rfl
          simp [saveAssetsStore_snd, saveAssetsStore_fst_eq, h2']
          apply indexDurable_album_ite
          exact ⟨covers_mwrite (covers_dwrite hT hl) (mget_mset_self _ _ _),
                 covers_mwrite (covers_dwrite hA ha) (mget_mset_self _ _ _)⟩

/-- The album-update tail of the metadata path: a failure there falls
back to the second import attempt. -/
theorem indexDurable_album_ite_main (s3 : App) (trk : Track) (f : MFile)
    (h : IndexDurable s3)
    (hl : mget s3.library f.freshId2 = none)
    (ha : mget s3.assets ("asset_" ++ f.freshId2) = none) :
    IndexDurable (if (updateAlbumAndArtist s3 trk).2 = false
        then processFileFallback (updateAlbumAndArtist s3 trk).1 f
        else ((updateAlbumAndArtist s3 trk).1, true)).1 := by
  have hff := updateAlbumAndArtist_fst_fields s3 trk
  have hU : IndexDurable (updateAlbumAndArtist s3 trk).1 :=
    indexDurable_fields s3 _ h hff.1 hff.2.1 hff.2.2.1 hff.2.2.2
  split
  · exact fallback_preserves _ f hU (by rw [hff.1]; exact hl)
      (by rw [hff.2.1]; exact ha)
  · exact hU

theorem main_preserves (s : App) (f : MFile) (md : FileMeta)
    (c : Option String)
    (hI : IndexDurable s)
    (hne : f.freshId1 ≠ f.freshId2)
    (hl1 : mget s.library f.freshId1 = none)
    (hl2 : mget s.library f.freshId2 = none)
    (ha1 : mget s.assets ("asset_" ++ f.freshId1) = none)
    (ha2 : mget s.assets ("asset_" ++ f.freshId2) = none) :
    IndexDurable (processFileMain s f md c).1 := by
  obtain ⟨hT, hA⟩ := hI
  unfold processFileMain
  dsimp only
  by_cases h1 : s.sched.head?.getD false = true
  · simp [saveTracksStore_snd, saveTracksStore_fst_eq, h1]
    exact fallback_preserves _ f ⟨hT, hA⟩ hl2 ha2
  · have h1' : s.sched.head?.getD false = false := by
      cases hx : s.sched.head?.getD false with
      | true => exact absurd hx h1
      | false => rfl
    simp [saveTracksStore_snd, saveTracksStore_fst_eq, h1']
    by_cases h2 : s.sched[1]?.getD false = true
    · simp [saveAssetsStore_snd, saveAssetsStore_fst_eq, h2]
      exact fallback_preserves _ f ⟨covers_dwrite hT hl1, hA⟩ hl2 ha2
    · have h2' : s.sched[1]?.getD false = false := by
        cases hx : s.sched[1]?.getD false with
        | true => exact absurd hx h2
        | false => rfl
      simp [saveAssetsStore_snd, saveAssetsStore_fst_eq, h2']
      apply indexDurable_album_ite_main
      · exact ⟨covers_mwrite (covers_dwrite hT hl1) (mget_mset_self _ _ _),
               covers_mwrite (covers_dwrite hA ha1) (mget_mset_self _ _ _)⟩
      · exact (mget_mset_other s.library f.freshId1 f.freshId2 _
          (Ne.symm hne)).trans hl2
      · exact (mget_mset_other s.assets ("asset_" ++ f.freshId1)
          ("asset_" ++ f.freshId2) _
          (fun hc => hne (strAppend_left_cancel hc).symm)).trans ha2

/-- `processFile` preserves the durable-first invariant on tracks and
assets, whatever the failure schedule: the in-memory index is only ever
written at a key right after the matching durable write succeeded. -/
theorem processFile_preserves (s : App) (f : MFile)
    (hI : IndexDurable s) (hF : FreshFor s f) :
    IndexDurable (processFile s f).1 := by
  obtain ⟨hne, hl1, hl2, ha1, ha2, hc1⟩ := hF
  unfold processFile
  cases hm : f.meta with
  | none => exact fallback_preserves s f hI hl2 ha2
  | some md =>
      dsimp only
      cases hp : md.picture with
      | none => exact main_preserves s f md none hI hne hl1 hl2 ha1 ha2
      | some pic =>
          dsimp only
          by_cases h1 : s.sched.head?.getD false = true
          · simp [saveAssetsStore_snd, saveAssetsStore_fst_eq, h1]
            exact fallback_preserves _ f hI hl2 ha2
          · have h1' : s.sched.head?.getD false = false := by
              cases hx : s.sched.head?.getD false with
              | true => exact absurd hx h1
              | false => rfl
            simp [saveAssetsStore_snd, saveAssetsStore_fst_eq, h1']
            refine main_preserves _ f md _ ?_ hne ?_ ?_ ?_ ?_
            · exact ⟨hI.1,
                covers_mwrite (covers_dwrite hI.2 hc1) (mget_mset_self _ _ _)⟩
            · exact hl1
            · exact hl2
            · exact (mget_mset_other s.assets ("cover_" ++ f.freshId1)
                ("asset_" ++ f.freshId1) _ (asset_ne_cover _ _)).trans ha1
            · exact (mget_mset_other s.assets ("cover_" ++ f.freshId1)
                ("asset_" ++ f.freshId2) _ (asset_ne_cover _ _)).trans ha2

theorem deleteTracksStore_fst_library (s : App) (k : String) :
    (deleteTracksStore s k).1.library = s.library := by
  rw [deleteTracksStore_fst_eq]

theorem deleteTracksStore_fst_assets (s : App) (k : String) :
    (deleteTracksStore s k).1.assets = s.assets := by
  rw [deleteTracksStore_fst_eq]

theorem deleteTracksStore_fst_queue (s : App) (k : String) :
    (deleteTracksStore s k).1.queue = s.queue := by
  rw [deleteTracksStore_fst_eq]

theorem deleteAssetsStore_fst_library (s : App) (k : String) :
    (deleteAssetsStore s k).1.library = s.library := by
  rw [deleteAssetsStore_fst_eq]

theorem deleteAssetsStore_fst_assets (s : App) (k : String) :
    (deleteAssetsStore s k).1.assets = s.assets := by
  rw [deleteAssetsStore_fst_eq]

theorem deleteAssetsStore_fst_queue (s : App) (k : String) :
    (deleteAssetsStore s k).1.queue = s.queue := by
  rw [deleteAssetsStore_fst_eq]

theorem deleteAssetsStore_fst_dTracks (s : App) (k : String) :
    (deleteAssetsStore s k).1.dTracks = s.dTracks := by
  rw [deleteAssetsStore_fst_eq]

/-- `deleteTrack` either completes — the track leaves both the in-memory
library and the durable tracks store — or aborts on a rejected durable
delete, leaving the whole in-memory index (library, assets, queue)
unchanged.  Durable deletion strictly precedes the index update. -/
theorem deleteTrack_outcome (s : App) (trackId : String) :
    ((deleteTrack s trackId).library = mdel s.library trackId ∧
     (deleteTrack s trackId).dTracks = mdel s.dTracks trackId) ∨
    ((deleteTrack s trackId).library = s.library ∧
     (deleteTrack s trackId).assets = s.assets ∧
     (deleteTrack s trackId).queue = s.queue) := by
  unfold deleteTrack
  split
  · exact Or.inr ⟨rfl, rfl, rfl⟩
  · rename_i track heqm
    split
    rename_i s1 ok1 heq1
    have hfst1 : (deleteTracksStore s trackId).1 = s1 := by rw [heq1]
    have hlib : s1.library = s.library := by
      rw [← hfst1, deleteTracksStore_fst_library]
    have hass : s1.assets = s.assets := by
      rw [← hfst1, deleteTracksStore_fst_assets]
    have hq : s1.queue = s.queue := by
      rw [← hfst1, deleteTracksStore_fst_queue]
    cases ok1 with
    | false =>
        rw [if_pos (by decide : ((!false) = true))]
        exact Or.inr ⟨hlib, hass, hq⟩
    | true =>
        rw [if_neg (by decide : ¬ ((!true) = true))]
        have hsnd1 : (deleteTracksStore s trackId).2 = true := by rw [heq1]
        have hh : s.sched.head?.getD false = false := by
          have hsn := deleteTracksStore_snd s trackId
          rw [hsnd1] at hsn
          cases hx : s.sched.head?.getD false
          · rfl
          · rw [hx] at hsn
            exact absurd hsn (by decide)
        have hdt : s1.dTracks = mdel s.dTracks trackId := by
          rw [← hfst1, deleteTracksStore_fst_eq]
          simp [hh]
        cases hfa : track.fileAssetId with
        | some fa =>
            split
            rename_i s2 ok2 heq2
            have heq2' : deleteAssetsStore s1 fa = (s2, ok2) := heq2
            have hfst2 : (deleteAssetsStore s1 fa).1 = s2 := by rw [heq2']
            have hlib2 : s2.library = s.library := by
              rw [← hfst2, deleteAssetsStore_fst_library, hlib]
            have hass2 : s2.assets = s.assets := by
              rw [← hfst2, deleteAssetsStore_fst_assets, hass]
            have hq2 : s2.queue = s.queue := by
              rw [← hfst2, deleteAssetsStore_fst_queue, hq]
            have hdt2 : s2.dTracks = mdel s.dTracks trackId := by
              rw [← hfst2, deleteAssetsStore_fst_dTracks, hdt]
            cases ok2 with
            | false =>
                rw [if_pos (by decide : ((!false) = true))]
                exact Or.inr ⟨hlib2, hass2, hq2⟩
            | true =>
                rw [if_neg (by decide : ¬ ((!true) = true))]
                cases hca : track.coverAssetId with
                | some ca =>
                    split
                    rename_i s3 ok3 heq3
                    have heq3' : deleteAssetsStore s2 ca = (s3, ok3) := heq3
                    have hfst3 : (deleteAssetsStore s2 ca).1 = s3 := by
                      rw [heq3']
                    have hlib3 : s3.library = s.library := by
                      rw [← hfst3, deleteAssetsStore_fst_library, hlib2]
                    have hass3 : s3.assets = s.assets := by
                      rw [← hfst3, deleteAssetsStore_fst_assets, hass2]
                    have hq3 : s3.queue = s.queue := by
                      rw [← hfst3, deleteAssetsStore_fst_queue, hq2]
                    have hdt3 : s3.dTracks = mdel s.dTracks trackId := by
                      rw [← hfst3, deleteAssetsStore_fst_dTracks, hdt2]
                    cases ok3 with
                    | false =>
                        rw [if_pos (by decide : ((!false) = true))]
                        exact Or.inr ⟨hlib3, hass3, hq3⟩
                    | true =>
                        rw [if_neg (by decide : ¬ ((!true) = true))]
                        refine Or.inl ⟨?_, ?_⟩ <;>
                          simp [generateShuffledQueue, showToast, hfa, hca,
                            hlib3, hdt3]
                | none =>
                    split
                    rename_i s3 ok3 heq3
                    have heq3' : ((s2 : App), (true : Bool)) = (s3, ok3) :=
                      heq3
                    injection heq3' with hs3 hok3
                    subst hs3
                    cases hok3
                    rw [if_neg (by decide : ¬ ((!true) = true))]
                    refine Or.inl ⟨?_, ?_⟩ <;>
                      simp [generateShuffledQueue, showToast, hfa, hca,
                        hlib2, hdt2]
        | none =>
            split
            rename_i s2 ok2 heq2
            have heq2' : ((s1 : App), (true : Bool)) = (s2, ok2) := heq2
            injection heq2' with hs2 hok2
            subst hs2
            cases hok2
            rw [if_neg (by decide : ¬ ((!true) = true))]
            cases hca : track.coverAssetId with
            | some ca =>
                split
                rename_i s3 ok3 heq3
                have heq3' : deleteAssetsStore s1 ca = (s3, ok3) := heq3
                have hfst3 : (deleteAssetsStore s1 ca).1 = s3 := by
                  rw [heq3']
                have hlib3 : s3.library = s.library := by
                  rw [← hfst3, deleteAssetsStore_fst_library, hlib]
                have hass3 : s3.assets = s.assets := by
                  rw [← hfst3, deleteAssetsStore_fst_assets, hass]
                have hq3 : s3.queue = s.queue := by
                  rw [← hfst3, deleteAssetsStore_fst_queue, hq]
                have hdt3 : s3.dTracks = mdel s.dTracks trackId := by
                  rw [← hfst3, deleteAssetsStore_fst_dTracks, hdt]
                cases ok3 with
                | false =>
                    rw [if_pos (by decide : ((!false) = true))]
                    exact Or.inr ⟨hlib3, hass3, hq3⟩
                | true =>
                    rw [if_neg (by decide : ¬ ((!true) = true))]
                    refine Or.inl ⟨?_, ?_⟩ <;>
                      simp [generateShuffledQueue, showToast, hfa, hca,
                        hlib3, hdt3]
            | none =>
                split
                rename_i s3 ok3 heq3
                have heq3' : ((s1 : App), (true : Bool)) = (s3, ok3) := heq3
                injection heq3' with hs3 hok3
                subst hs3
                cases hok3
                rw [if_neg (by decide : ¬ ((!true) = true))]
                refine Or.inl ⟨?_, ?_⟩ <;>
                  simp [generateShuffledQueue, showToast, hfa, hca,
                    hlib, hdt]

/-- A metadata-bearing audio file whose oracles are all concrete: used to
exercise the import pipeline on explicit failure schedules. -/
def fileC2 : MFile :=
  { name := "song.mp3", mime := "audio/mpeg", blob := 7,
    meta := some { title := some "Song", artist := some "Ana",
                   album := some "Blue", trackNo := some 1,
                   duration := some 100, picture := none },
    fallbackDuration := none, freshId1 := "t1", freshId2 := "t2", now := 5 }

/-- A file on which both import attempts fail (`parseBlob` and
`getMediaDuration` both reject). -/
def fileBad : MFile :=
  { name := "broken.mp3", mime := "audio/mpeg", blob := 9, meta := none,
    fallbackDuration := none, freshId1 := "b1", freshId2 := "b2", now := 6 }

/-- C2 (counterexample): the durable-first discipline is violated by
the importing pipeline.  With the second durable write rejecting, `processFile`
fails but leaves a durable track record whose `fileAssetId` points at an
asset that was never stored.  With the third (album) write rejecting,
`processFile` fails after the in-memory index was already updated — the
index is changed by a failed operation — and the in-memory album exists
while the durable albums store is still empty (the album is written to
memory before the durable store). -/
theorem processFile_durability_cex :
    (processFile { app0 with sched := [false, true] } fileC2).2 = false ∧
    mget (processFile { app0 with sched := [false, true] } fileC2).1.dTracks
        "t1"
      = some { id := "t1", title := "Song", artist := "Ana", album := "Blue",
               trackNumber := 1, duration := 100,
               fileAssetId := some "asset_t1", coverAssetId := none,
               addedAt := 5 } ∧
    mget (processFile { app0 with sched := [false, true] } fileC2).1.dAssets
        "asset_t1" = none ∧
    (processFile { app0 with sched := [false, false, true] } fileC2).2
      = false ∧
    (processFile { app0 with sched := [false, false, true] } fileC2).1.library
      ≠ app0.library ∧
    mvalues (processFile { app0 with sched := [false, false, true] }
        fileC2).1.albums ≠ [] ∧
    (processFile { app0 with sched := [false, false, true] } fileC2).1.dAlbums
      = [] := by
  refine ⟨rfl, rfl, rfl, rfl, ?_, ?_, rfl⟩ <;> decide

/-- C2 (amended): what the code actually guarantees.  (1) For the import
of one file, the durable stores for tracks and assets are written before
the in-memory index: whatever the failure schedule, `processFile`
preserves the invariant that every in-memory track/asset also sits in the
durable store — under the freshness of the generated ids.  (No such
guarantee holds for albums, and a failed import can still change the
index and leave a dangling durable track record, per the counterexample.)
(2) For the delete of one track, durable deletion strictly precedes the
index update: either the delete completes and the track leaves both the
library and the durable store, or a rejected durable delete aborts the
operation with the in-memory library, assets and queue all unchanged. -/
theorem durable_first_amended :
    (∀ s f, IndexDurable s → FreshFor s f →
      IndexDurable (processFile s f).1) ∧
    (∀ s trackId,
      ((deleteTrack s trackId).library = mdel s.library trackId ∧
       (deleteTrack s trackId).dTracks = mdel s.dTracks trackId) ∨
      ((deleteTrack s trackId).library = s.library ∧
       (deleteTrack s trackId).assets = s.assets ∧
       (deleteTrack s trackId).queue = s.queue)) :=
  ⟨fun s f hI hF => processFile_preserves s f hI hF,
   fun s trackId => deleteTrack_outcome s trackId⟩

theorem durable_first_amended_witness :
    IndexDurable (processFile { app0 with sched := [true] } fileC2).1 ∧
    (((deleteTrack app0 "x").library = mdel app0.library "x" ∧
      (deleteTrack app0 "x").dTracks = mdel app0.dTracks "x") ∨
     ((deleteTrack app0 "x").library = app0.library ∧
      (deleteTrack app0 "x").assets = app0.assets ∧
      (deleteTrack app0 "x").queue = app0.queue)) :=
  ⟨durable_first_amended.1 { app0 with sched := [true] } fileC2
      (indexDurable_nil _ rfl rfl) ⟨by decide, rfl, rfl, rfl, rfl, rfl⟩,
   durable_first_amended.2 app0 "x"⟩

/-- C3 (counterexample): `importFiles` does not return an
`{importedCount, totalCount}` value — the JS function has no return
statement, so the caller receives `undefined` (modelled as `none`), even
for a fully successful import; the two counts only surface in the final
toast. -/
theorem importFiles_return_shape_cex :
    (importFiles app0 [fileC2]).2 = none ∧
    (importFiles app0 []).2 = none ∧
    (importFiles app0 [fileC2]).1.toasts.head?
      = some (Toast.importCounts 1 1) :=
  ⟨rfl, rfl, rfl⟩

/-- C3 (amended): `importFiles` always returns `undefined`; the
success/total counts reach the user only through the final toast.  The
per-file loop never aborts: processing a batch decomposes over
concatenation (each later file is processed from wherever the state
ended, its success counted independently of earlier failures), and in
particular a batch of a failing then a succeeding file still counts one
success. -/
theorem importFiles_batch_amended :
    (∀ s files, (importFiles s files).2 = none) ∧
    (∀ s fs gs, runBatch s (fs ++ gs)
        = ((runBatch (runBatch s fs).1 gs).1,
           (runBatch s fs).2 + (runBatch (runBatch s fs).1 gs).2)) ∧
    (∀ s f g, (processFile s f).2 = false →
      (processFile (processFile s f).1 g).2 = true →
      (runBatch s [f, g]).2 = 1) ∧
    (∀ s files, files.filter mimeValid ≠ [] →
      (importFiles s files).1.toasts.head?
        = some (Toast.importCounts
            (runBatch (showToast s (Toast.msg
              ("Importando " ++ toString (files.filter mimeValid).length
                ++ " archivos...") "info")) (files.filter mimeValid)).2
            (files.filter mimeValid).length)) := by
  refine ⟨?_, ?_, ?_, ?_⟩
  · intro s files
    unfold importFiles
    dsimp only
    split <;> rfl
  · intro s fs gs
    induction fs generalizing s with
    | nil => simp [runBatch]
    | cons f rest ih => simp [runBatch, ih, Nat.add_assoc]
  · intro s f g hf hg
    simp [runBatch, hf, hg]
  · intro s files hne
    unfold importFiles
    dsimp only
    rw [if_neg (fun hc => hne (List.length_eq_zero.mp hc))]
    rfl

theorem importFiles_batch_amended_witness :
    (importFiles app0 [fileBad, fileC2]).2 = none ∧
    (runBatch app0 ([fileBad] ++ [fileC2]))
      = ((runBatch (runBatch app0 [fileBad]).1 [fileC2]).1,
         (runBatch app0 [fileBad]).2
           + (runBatch (runBatch app0 [fileBad]).1 [fileC2]).2) ∧
    (processFile app0 fileBad).2 = false ∧
    (processFile (processFile app0 fileBad).1 fileC2).2 = true ∧
    (runBatch app0 [fileBad, fileC2]).2 = 1 ∧
    (importFiles app0 [fileBad, fileC2]).1.toasts.head?
      = some (Toast.importCounts 1 2) :=
  ⟨importFiles_batch_amended.1 app0 [fileBad, fileC2],
   importFiles_batch_amended.2.1 app0 [fileBad] [fileC2],
   by decide, by decide,
   importFiles_batch_amended.2.2.1 app0 fileBad fileC2 (by decide) (by decide),
   (importFiles_batch_amended.2.2.2 app0 [fileBad, fileC2]
       (by decide)).trans (by decide)⟩

end FinalPlayer
